import Mathlib

/-!
Verification of the Resume_Score_Checker HTTP service (src/server.js, with
src/unnamed/part_000 an earlier snapshot of the same handler) against its
natural-language specification.

The development shallowly embeds the request handler of `src/server.js`
(the latest revision, whose behavior the specification's "reference
behavior" describes: the 12 000-character truncation, the upload-file
check, the generic 500 error body, and the `finally`-block cleanup).
JavaScript strings are modelled as `List Char`; the external collaborators
(file system, pdf-parse, mammoth, the Gemini client) are oracles supplied
through an environment record; `JSON.parse` / `JSON.stringify` are
modelled by an executable JSON value type with a serializer and a parser
(numbers restricted to integers and strings to Unicode scalar values,
which is the fragment the claims exercise).
-/

/-- JavaScript strings are modelled as lists of characters. -/
abbrev Chars := List Char

/-- Boolean test that the first argument is a prefix of the second
(used to locate regex-literal matches such as the code-fence markers). -/
def leadsWith : Chars → Chars → Bool
  | [], _ => true
  | _ :: _, [] => false
  | a :: as, b :: bs => a == b && leadsWith as bs

/-- Boolean substring test: some suffix of the second argument starts with
the first argument. -/
def containsSub (p : Chars) : Chars → Bool
  | [] => p.isEmpty
  | c :: rest => leadsWith p (c :: rest) || containsSub p rest

/-- Worker for `stripAll`.  The `Nat` argument counts characters still to
be skipped because they belonged to an already-replaced match, mirroring
how a global regex replace resumes scanning after each match. -/
def stripAllAux (p : Chars) : Nat → Chars → Chars
  | _, [] => []
  | s + 1, _ :: cs => stripAllAux p s cs
  | 0, c :: cs =>
    if leadsWith p (c :: cs) then stripAllAux p (p.length - 1) cs
    else c :: stripAllAux p 0 cs

/-- Model of `str.replace(/pat/g, "")` for a literal pattern `p`: every
non-overlapping occurrence of `p` is removed, scanning left to right. -/
def stripAll (p l : Chars) : Chars := stripAllAux p 0 l

/-- The characters removed by JavaScript `String.prototype.trim`
(ECMAScript WhiteSpace and LineTerminator, including U+FEFF). -/
def isJsWS (c : Char) : Bool :=
  c.toNat = 9 || c.toNat = 10 || c.toNat = 11 || c.toNat = 12 || c.toNat = 13 ||
  c.toNat = 32 || c.toNat = 160 || c.toNat = 0x1680 ||
  (0x2000 ≤ c.toNat && c.toNat ≤ 0x200A) ||
  c.toNat = 0x2028 || c.toNat = 0x2029 || c.toNat = 0x202F || c.toNat = 0x205F ||
  c.toNat = 0x3000 || c.toNat = 0xFEFF

/-- Model of JavaScript `str.trim()`. -/
def jsTrim (l : Chars) : Chars := ((l.dropWhile isJsWS).reverse.dropWhile isJsWS).reverse

/-- Model of `str.replace(/^﻿/, "")` as used in `safeParseJSON`
(src/server.js line 123): a single leading byte-order-mark is removed. -/
def stripLeadingBOM (l : Chars) : Chars :=
  match l with
  | [] => []
  | c :: r => if c = '﻿' then r else c :: r

/-! JSON values, as produced by `JSON.parse` and consumed by
`JSON.stringify`.  Numbers are modelled as integers and object member
lists are kept in order (JavaScript objects have distinct keys; the model
does not re-impose that). -/

mutual
inductive JsonVal : Type where
  | jnull : JsonVal
  | jbool (b : Bool) : JsonVal
  | jint (n : Int) : JsonVal
  | jstr (s : Chars) : JsonVal
  | jarr (items : JsonList) : JsonVal
  | jobj (members : JsonMembers) : JsonVal
inductive JsonList : Type where
  | nil : JsonList
  | cons (head : JsonVal) (tail : JsonList) : JsonList
inductive JsonMembers : Type where
  | nil : JsonMembers
  | cons (key : Chars) (value : JsonVal) (tail : JsonMembers) : JsonMembers
end

/-- Decimal digits of a natural number, most significant first; the first
argument is recursion fuel (any fuel above the number itself is enough). -/
def natCharsAux : Nat → Nat → Chars
  | 0, _ => []
  | fuel + 1, n =>
    if n < 10 then [Nat.digitChar n]
    else natCharsAux fuel (n / 10) ++ [Nat.digitChar (n % 10)]

/-- Decimal digits of a natural number, as JavaScript `String(n)` prints
them (no leading zeros, `0` for zero). -/
def natChars (n : Nat) : Chars := natCharsAux (n + 1) n

/-- Decimal rendering of an integer, as JavaScript prints an
integer-valued number inside `JSON.stringify`. -/
def intChars : Int → Chars
  | .ofNat n => natChars n
  | .negSucc m => '-' :: natChars (m + 1)

/-- Escape of one character inside a JSON string literal, following the
ECMAScript `QuoteJSONString` algorithm: quote, backslash and the named
control characters get two-character escapes, the remaining control
characters get a lowercase `\u00XX` escape, everything else is copied. -/
def escChar (c : Char) : Chars :=
  if c = '"' then ['\\', '"']
  else if c = '\\' then ['\\', '\\']
  else if c = '\x08' then ['\\', 'b']
  else if c = '\x09' then ['\\', 't']
  else if c = '\x0a' then ['\\', 'n']
  else if c = '\x0c' then ['\\', 'f']
  else if c = '\x0d' then ['\\', 'r']
  else if c.toNat < 32 then
    ['\\', 'u', '0', '0', Nat.digitChar (c.toNat / 16), Nat.digitChar (c.toNat % 16)]
  else [c]

/-- Escaped body of a JSON string literal. -/
def escBody : Chars → Chars
  | [] => []
  | c :: cs => escChar c ++ escBody cs

mutual
/-- Model of `JSON.stringify` on the modelled JSON fragment. -/
def serVal : JsonVal → Chars
  | .jnull => "null".data
  | .jbool true => "true".data
  | .jbool false => "false".data
  | .jint n => intChars n
  | .jstr s => '"' :: (escBody s ++ ['"'])
  | .jarr items => '[' :: (serList items ++ [']'])
  | .jobj members => '{' :: (serMembers members ++ ['}'])
/-- Comma-separated serialization of array elements. -/
def serList : JsonList → Chars
  | .nil => []
  | .cons v .nil => serVal v
  | .cons v (.cons w tl) => serVal v ++ ',' :: serList (.cons w tl)
/-- Comma-separated serialization of object members. -/
def serMembers : JsonMembers → Chars
  | .nil => []
  | .cons k v .nil => '"' :: (escBody k ++ '"' :: ':' :: serVal v)
  | .cons k v (.cons k2 w tl) =>
    ('"' :: (escBody k ++ '"' :: ':' :: serVal v)) ++ ',' :: serMembers (.cons k2 w tl)
end

/-- The insignificant whitespace of the JSON grammar (space, tab, line
feed, carriage return), as skipped by `JSON.parse`. -/
def isJsonWs (c : Char) : Bool := c = ' ' || c = '\t' || c = '\n' || c = '\r'

/-- Skip insignificant JSON whitespace. -/
def skipWs (l : Chars) : Chars := l.dropWhile isJsonWs

/-- Boolean test that a list starts with the given character. -/
def headIs (l : Chars) (c : Char) : Bool :=
  match l with
  | [] => false
  | x :: _ => x = c

/-- Decimal digit test on the character code, as the JSON grammar defines
digits. -/
def digitCh (c : Char) : Bool := 48 ≤ c.toNat && c.toNat ≤ 57

/-- Numeric value of a decimal digit character. -/
def digitVal (c : Char) : Nat := c.toNat - 48

/-- Numeric value of a digit string, most significant digit first. -/
def natOfDigits (ds : Chars) : Nat := ds.foldl (fun a c => a * 10 + digitVal c) 0

/-- Value of a hexadecimal digit character, or `16` for a non-digit. -/
def hexVal (c : Char) : Nat :=
  if digitCh c then c.toNat - 48
  else if 'a' ≤ c && c ≤ 'f' then c.toNat - 87
  else if 'A' ≤ c && c ≤ 'F' then c.toNat - 55
  else 16

/-- Parser for the body of a JSON string literal, after the opening
quote; returns the decoded characters and the input following the closing
quote.  Escaped surrogate code units are rejected (the model's strings
hold Unicode scalar values), raw control characters are rejected as in
the JSON grammar.  The `Nat` argument is recursion fuel; every step
consumes at least one input character, so callers pass one more than the
input length. -/
def parseStrBody : Nat → Chars → Option (Chars × Chars)
  | 0, _ => none
  | f + 1, l =>
    match l with
    | [] => none
    | c :: rest =>
      if c = '"' then some ([], rest)
      else if c = '\\' then
        match rest with
        | [] => none
        | e :: r =>
          if e = '"' then (parseStrBody f r).map (fun p => ('"' :: p.1, p.2))
          else if e = '\\' then (parseStrBody f r).map (fun p => ('\\' :: p.1, p.2))
          else if e = '/' then (parseStrBody f r).map (fun p => ('/' :: p.1, p.2))
          else if e = 'b' then (parseStrBody f r).map (fun p => ('\x08' :: p.1, p.2))
          else if e = 'f' then (parseStrBody f r).map (fun p => ('\x0c' :: p.1, p.2))
          else if e = 'n' then (parseStrBody f r).map (fun p => ('\x0a' :: p.1, p.2))
          else if e = 'r' then (parseStrBody f r).map (fun p => ('\x0d' :: p.1, p.2))
          else if e = 't' then (parseStrBody f r).map (fun p => ('\x09' :: p.1, p.2))
          else if e = 'u' then
            match r with
            | h1 :: h2 :: h3 :: h4 :: r2 =>
              if hexVal h1 < 16 && hexVal h2 < 16 && hexVal h3 < 16 && hexVal h4 < 16 then
                if 0xD800 ≤ hexVal h1 * 4096 + hexVal h2 * 256 + hexVal h3 * 16 + hexVal h4 &&
                    hexVal h1 * 4096 + hexVal h2 * 256 + hexVal h3 * 16 + hexVal h4 ≤ 0xDFFF then
                  none
                else
                  (parseStrBody f r2).map
                    (fun p =>
                      (Char.ofNat (hexVal h1 * 4096 + hexVal h2 * 256 + hexVal h3 * 16 + hexVal h4)
                         :: p.1,
                       p.2))
              else none
            | _ => none
          else none
      else if c.toNat < 32 then none
      else (parseStrBody f rest).map (fun p => (c :: p.1, p.2))

/-- `parseStrBody` at its canonical fuel: one more than the input length
(each parsing step consumes at least one character). -/
def parseStrBodyTop (l : Chars) : Option (Chars × Chars) := parseStrBody (l.length + 1) l

/-- Parser for the part of a JSON number after a leading minus sign. -/
def parseNeg : Chars → Option (JsonVal × Chars)
  | [] => none
  | c :: r =>
    if c = '0' then some (.jint 0, r)
    else if digitCh c then
      some (.jint (-(natOfDigits ((c :: r).takeWhile digitCh) : Int)),
            (c :: r).dropWhile digitCh)
    else none

mutual
/-- Recursive-descent parser for one JSON value; the `Nat` argument is
recursion fuel.  Mirrors the JSON grammar used by `JSON.parse`
(restricted to integer numbers). -/
def parseVal : Nat → Chars → Option (JsonVal × Chars)
  | 0, _ => none
  | f + 1, l =>
    match skipWs l with
    | [] => none
    | c :: r =>
      if c = 'n' then (if leadsWith ['u', 'l', 'l'] r then some (.jnull, r.drop 3) else none)
      else if c = 't' then
        (if leadsWith ['r', 'u', 'e'] r then some (.jbool true, r.drop 3) else none)
      else if c = 'f' then
        (if leadsWith ['a', 'l', 's', 'e'] r then some (.jbool false, r.drop 4) else none)
      else if c = '"' then (parseStrBodyTop r).map (fun p => (.jstr p.1, p.2))
      else if c = '[' then
        (if headIs (skipWs r) ']' then some (.jarr .nil, (skipWs r).drop 1)
         else (parseItems f (skipWs r)).map (fun p => (.jarr p.1, p.2)))
      else if c = '{' then
        (if headIs (skipWs r) '}' then some (.jobj .nil, (skipWs r).drop 1)
         else (parseMembers f (skipWs r)).map (fun p => (.jobj p.1, p.2)))
      else if c = '-' then parseNeg r
      else if c = '0' then some (.jint 0, r)
      else if digitCh c then
        some (.jint (natOfDigits ((c :: r).takeWhile digitCh)), (c :: r).dropWhile digitCh)
      else none
/-- Parser for the elements of a non-empty JSON array, up to and
including the closing bracket. -/
def parseItems : Nat → Chars → Option (JsonList × Chars)
  | 0, _ => none
  | f + 1, l =>
    match parseVal f l with
    | none => none
    | some (v, r) =>
      if headIs (skipWs r) ',' then
        (parseItems f ((skipWs r).drop 1)).map (fun p => (.cons v p.1, p.2))
      else if headIs (skipWs r) ']' then some (.cons v .nil, (skipWs r).drop 1)
      else none
/-- Parser for the members of a non-empty JSON object, up to and
including the closing brace. -/
def parseMembers : Nat → Chars → Option (JsonMembers × Chars)
  | 0, _ => none
  | f + 1, l =>
    match skipWs l with
    | [] => none
    | c :: r =>
      if c = '"' then
        match parseStrBodyTop r with
        | none => none
        | some (k, r2) =>
          if headIs (skipWs r2) ':' then
            match parseVal f ((skipWs r2).drop 1) with
            | none => none
            | some (v, r3) =>
              if headIs (skipWs r3) ',' then
                (parseMembers f ((skipWs r3).drop 1)).map (fun p => (.cons k v p.1, p.2))
              else if headIs (skipWs r3) '}' then some (.cons k v .nil, (skipWs r3).drop 1)
              else none
          else none
      else none
end

/-- Model of `JSON.parse`: parse one value and require that only
whitespace follows; `none` models the `SyntaxError` throw. -/
def jsonParse (l : Chars) : Option JsonVal :=
  match parseVal (l.length + 1) l with
  | some (v, r) => if skipWs r = [] then some v else none
  | none => none

/-! Embedding of src/server.js. -/

/-- A thrown JavaScript `Error`, reduced to its message. -/
structure JsError where
  message : Chars

/-- The `req.file` object produced by the multer middleware for an
uploaded file: temporary path, declared media type, and size in bytes. -/
structure UploadedFile where
  path : Chars
  mimetype : Chars
  size : Nat

/-- The parts of a `POST /check-resume` request the handler reads:
`req.body.jobTitle` (absent or a string) and `req.file` (absent when no
file field was uploaded). -/
structure CheckResumeRequest where
  jobTitle : Option Chars
  file : Option UploadedFile

/-- Oracles for the external collaborators: the file system (path to
contents, also deciding `fs.existsSync`), `pdfParse(buffer).text`,
`mammoth.extractRawText` by path, and the Gemini
`model.generateContent → result.response.text()` round trip keyed by the
prompt. -/
structure Env where
  fsFiles : Chars → Option Chars
  pdfParseText : Chars → Except JsError Chars
  mammothRawText : Chars → Except JsError Chars
  generateContent : Chars → Except JsError Chars

/-- JavaScript truthiness of `req.body.jobTitle`: absent and the empty
string are falsy, every other string is truthy (src/server.js line 139,
`if (!jobTitle)`). -/
def jsTruthy : Option Chars → Bool
  | none => false
  | some s => !s.isEmpty

/-- The string carried by a possibly-absent jobTitle once the truthiness
check has passed. -/
def jobTitleStr : Option Chars → Chars
  | none => []
  | some s => s

/-- Media type accepted by the PDF branch of `extractText`. -/
def appPdf : Chars := "application/pdf".data

/-- Media type accepted by the DOCX branch of `extractText`. -/
def appDocx : Chars :=
  "application/vnd.openxmlformats-officedocument.wordprocessingml.document".data

/-- Message of the error thrown for an unsupported media type
(src/server.js line 51); a fixed string. -/
def unsupportedMsg : Chars := "Unsupported file type. Upload PDF or DOCX.".data

/-- The `console.log` line written on entry to `extractText`
(src/server.js line 40); it is the only place the offending media type is
recorded. -/
def extractLog (filePath mimeType : Chars) : Chars :=
  "📄 Extracting text from: ".data ++ filePath ++ " (".data ++ mimeType ++ ")".data

/-- Embedding of `extractText` (src/server.js lines 39-53): the log line
it prints and the text it returns or the error it throws.  The PDF branch
first reads the file (`fs.readFileSync`, which throws when the path does
not exist), the DOCX branch hands the path to mammoth, anything else
throws the fixed unsupported-type error. -/
def extractText (env : Env) (filePath mimeType : Chars) : Chars × Except JsError Chars :=
  (extractLog filePath mimeType,
   if mimeType = appPdf then
     match env.fsFiles filePath with
     | none => .error ⟨"ENOENT: no such file or directory, open ".data ++ filePath⟩
     | some dataBuffer => env.pdfParseText dataBuffer
   else if mimeType = appDocx then env.mammothRawText filePath
   else .error ⟨unsupportedMsg⟩)

/-- First fixed fragment of the evaluation prompt template
(src/server.js lines 57-59, up to the interpolated job title). -/
def promptPre1 : Chars :=
  ("\n  You are an advanced AI-powered Applicant Tracking System (ATS) evaluator.  \n" ++
   "  Analyze the following resume text against the job title \"").data

/-- Second fixed fragment of the evaluation prompt template
(src/server.js lines 59-95, from after the job title to the interpolated
resume text). -/
def promptPre2 : Chars :=
  ("\".  \n\n  ✅ Respond only with valid JSON (no markdown, no explanations).  \n\n" ++
   "  ### Scoring Rules:\n  - atsScore: Integer 0–100  \n    * Skills Match (40%)  \n" ++
   "    * Experience Relevance (30%)  \n    * Formatting & Clarity (10%)  \n" ++
   "    * Keywords/ATS optimization (20%)  \n\n  ### Output JSON format:\n  \x7b\n" ++
   "    \"atsScore\": number,\n    \"roleDetected\": \"string\",\n    \"skills\": \x7b\n" ++
   "      \"matched\": [\"skill1\", \"skill2\"],\n      \"missing\": [\"skill3\", \"skill4\"]\n" ++
   "    \x7d,\n    \"analysis\": \x7b\n      \"summary\": \"feedback on resume summary\",\n" ++
   "      \"skillsSection\": \"feedback on skills section\",\n" ++
   "      \"experience\": \"feedback on work experience\",\n" ++
   "      \"projects\": \"feedback on projects section\",\n" ++
   "      \"education\": \"feedback on education section\",\n" ++
   "      \"formatting\": \"feedback on structure, readability, ATS-friendliness\",\n" ++
   "      \"keywords\": \"feedback on keyword density and missing keywords\"\n    \x7d,\n" ++
   "    \"suggestions\": [\n      \"specific actionable suggestion 1\",\n" ++
   "      \"specific actionable suggestion 2\",\n      \"specific actionable suggestion 3\"\n" ++
   "    ]\n  \x7d\n\n  Resume Text:\n  ").data

/-- Trailing fixed fragment of the evaluation prompt template
(src/server.js line 96). -/
def promptSuf : Chars := "\n  ".data

/-- The evaluation prompt of `analyzeResume` (src/server.js lines 57-96):
the fixed template with the job title and the resume text interpolated. -/
def analyzePrompt (resumeText jobTitle : Chars) : Chars :=
  promptPre1 ++ jobTitle ++ promptPre2 ++ resumeText ++ promptSuf

/-- Embedding of `analyzeResume` (src/server.js lines 56-118): build the
prompt, send it as a single user message, return the raw response text;
the catch block logs and rethrows the same error. -/
def analyzeResume (env : Env) (resumeText jobTitle : Chars) : Except JsError Chars :=
  env.generateContent (analyzePrompt resumeText jobTitle)

/-- Message of the error thrown when the model output fails to parse as
JSON (src/server.js line 127). -/
def parseFailMsg : Chars := "Failed to parse AI response as JSON.".data

/-- Embedding of `safeParseJSON` (src/server.js lines 121-129):
`JSON.parse(str.trim().replace(/^﻿/, ""))`, with a parse failure
converted into the fixed error message. -/
def safeParseJSON (str : Chars) : Except JsError JsonVal :=
  match jsonParse (stripLeadingBOM (jsTrim str)) with
  | some v => .ok v
  | none => .error ⟨parseFailMsg⟩

/-- The code-fence pattern removed first from the model output
(src/server.js line 163, `.replace(/```json/g, "")`). -/
def tickJsonFence : Chars := "```json".data

/-- The code-fence pattern removed second from the model output
(src/server.js line 164, `.replace(/```/g, "")`). -/
def tickFence : Chars := "```".data

/-- The cleaning applied to the raw model text in the handler
(src/server.js lines 162-165): strip every occurrence of "```json", then
every occurrence of "```", then trim. -/
def cleanModelOutput (analysis : Chars) : Chars :=
  jsTrim (stripAll tickFence (stripAll tickJsonFence analysis))

/-- Cleaning plus `safeParseJSON`, i.e. the full path a raw model
response takes before it can be sent to the caller (the spec's Response
Normalizer). -/
def normalizeResponse (raw : Chars) : Except JsError JsonVal :=
  safeParseJSON (cleanModelOutput raw)

/-- The multer configuration options used by the server; the source
passes only a destination directory (src/server.js line 36,
`multer({ dest: "uploads/" })`), so no file-size limit is configured. -/
structure MulterOptions where
  dest : Chars
  fileSizeLimit : Option Nat

/-- Embedding of `const upload = multer({ dest: "uploads/" })`
(src/server.js line 36). -/
def upload : MulterOptions := ⟨"uploads/".data, none⟩

/-- Whether the multer middleware accepts an uploaded file at intake:
multer rejects a file only when a configured `limits.fileSize` is
exceeded, and its default limit is infinite. -/
def intakeAccepts (opts : MulterOptions) (f : UploadedFile) : Bool :=
  match opts.fileSizeLimit with
  | none => true
  | some m => f.size ≤ m

/-- `const MAX_CHARS = 12000` (src/server.js line 155). -/
def MAX_CHARS : Nat := 12000

/-- Response body `{"error": msg}` as sent by `res.status(...).json`. -/
def errBody (msg : Chars) : JsonVal := .jobj (.cons "error".data (.jstr msg) .nil)

/-- Body of the 400 response for a missing job title
(src/server.js line 140). -/
def jobTitleRequiredMsg : Chars := "Job title required".data

/-- Body of the 400 response for a missing upload
(src/server.js line 144). -/
def fileRequiredMsg : Chars := "Resume file is required (PDF or DOCX)".data

/-- Body of the 500 response for any caught error
(src/server.js line 176). -/
def analysisFailedMsg : Chars := "Resume analysis failed".data

/-- The unlink calls performed by the `finally` block (src/server.js
lines 178-184): `if (filePath && fs.existsSync(filePath))
fs.unlinkSync(filePath)`, where `filePathVar` is the value of the
`filePath` variable when the block runs (`none` models `undefined`). -/
def cleanupFinally (env : Env) (filePathVar : Option Chars) : List Chars :=
  match filePathVar with
  | none => []
  | some p => if (env.fsFiles p).isSome then [p] else []

/-- Whether the multer temporary file backing the request's upload still
exists once the handler (including its `finally` block) has finished. -/
def fileRetainedAfter (env : Env) (req : CheckResumeRequest) (filePathVar : Option Chars) : Bool :=
  match req.file with
  | none => false
  | some f => (env.fsFiles f.path).isSome && !((cleanupFinally env filePathVar).contains f.path)

/-- Observable outcome of one `POST /check-resume` request: HTTP status
and JSON body, whether `extractText` ran, the prompt handed to
`generateContent` (if any), the unlink calls of the `finally` block, and
whether the uploaded temporary file survives the request. -/
structure HandlerResult where
  status : Nat
  body : JsonVal
  extractCalled : Bool
  promptSent : Option Chars
  unlinkCalls : List Chars
  fileRetained : Bool

/-- Helper assembling a `HandlerResult` together with the effects of the
`finally` block for the given final value of the `filePath` variable. -/
def mkRes (env : Env) (req : CheckResumeRequest) (status : Nat) (body : JsonVal)
    (extractCalled : Bool) (promptSent : Option Chars) (filePathVar : Option Chars) :
    HandlerResult :=
  ⟨status, body, extractCalled, promptSent,
   cleanupFinally env filePathVar, fileRetainedAfter env req filePathVar⟩

/-- Embedding of the `app.post("/check-resume", ...)` handler
(src/server.js lines 132-185).  Control flow, in source order: job-title
truthiness check (400), upload check (400), `extractText`,
`slice(0, MAX_CHARS)`, `analyzeResume`, code-fence cleaning,
`safeParseJSON`, success response; every caught error produces the fixed
500 body; the `finally` block unlinks the temporary file exactly when the
`filePath` variable has been assigned and the file exists.  Note that
`filePath` is assigned only after both validation checks (line 147), so
the `finally` block does nothing on the two 400 paths. -/
def checkResume (env : Env) (req : CheckResumeRequest) : HandlerResult :=
  if !(jsTruthy req.jobTitle) then
    mkRes env req 400 (errBody jobTitleRequiredMsg) false none none
  else
    match req.file with
    | none => mkRes env req 400 (errBody fileRequiredMsg) false none none
    | some f =>
      match (extractText env f.path f.mimetype).2 with
      | .error _ => mkRes env req 500 (errBody analysisFailedMsg) true none (some f.path)
      | .ok resumeText =>
        let safeResumeText := resumeText.take MAX_CHARS
        match analyzeResume env safeResumeText (jobTitleStr req.jobTitle) with
        | .error _ =>
          mkRes env req 500 (errBody analysisFailedMsg) true
            (some (analyzePrompt safeResumeText (jobTitleStr req.jobTitle))) (some f.path)
        | .ok analysisRaw =>
          match safeParseJSON (cleanModelOutput analysisRaw) with
          | .error _ =>
            mkRes env req 500 (errBody analysisFailedMsg) true
              (some (analyzePrompt safeResumeText (jobTitleStr req.jobTitle))) (some f.path)
          | .ok parsed =>
            mkRes env req 200 parsed true
              (some (analyzePrompt safeResumeText (jobTitleStr req.jobTitle))) (some f.path)

/-! Concrete fixtures used by witnesses and counterexamples. -/

/-- A temporary upload path as multer would create it. -/
def pathA : Chars := "uploads/abc123".data

/-- A PDF upload of negligible size. -/
def fileA : UploadedFile := ⟨pathA, appPdf, 100⟩

/-- An upload whose declared size exceeds 5 MB by one byte. -/
def fileBig : UploadedFile := ⟨pathA, appPdf, 5 * 1024 * 1024 + 1⟩

/-- An error produced by a failing oracle. -/
def errX : JsError := ⟨"boom".data⟩

/-- Environment in which every external collaborator fails and no file
exists. -/
def envFail : Env :=
  ⟨fun _ => none, fun _ => .error errX, fun _ => .error errX, fun _ => .error errX⟩

/-- A syntactically valid JSON model answer that does not match the
documented EvaluationResponse schema. -/
def rawFoo : Chars := "\x7b\"foo\":1\x7d".data

/-- Environment in which the upload exists, extraction yields a short
text, and the model answers with schema-less JSON. -/
def envOk : Env :=
  ⟨fun p => if p = pathA then some "PDFBYTES".data else none,
   fun _ => .ok "resume text".data,
   fun _ => .ok "resume text".data,
   fun _ => .ok rawFoo⟩

/-- Request with a job title and a small PDF upload. -/
def reqFull : CheckResumeRequest := ⟨some "Engineer".data, some fileA⟩

/-- Request with an uploaded file but no jobTitle field. -/
def reqNoTitle : CheckResumeRequest := ⟨none, some fileA⟩

/-- Request with an uploaded file and an empty jobTitle field. -/
def reqEmptyTitle : CheckResumeRequest := ⟨some [], some fileA⟩

/-- Request with a job title but no uploaded file. -/
def reqNoFile : CheckResumeRequest := ⟨some "Engineer".data, none⟩

/-- Request with neither a jobTitle field nor an uploaded file. -/
def reqNothing : CheckResumeRequest := ⟨none, none⟩

/-- Request with a job title and an oversized PDF upload. -/
def reqBig : CheckResumeRequest := ⟨some "Engineer".data, some fileBig⟩

/-- A media type accepted by neither extraction branch. -/
def mtTextPlain : Chars := "text/plain".data

mutual
/-- Recursion-fuel requirement of the parser on a serialized value;
bounded by the length of the serialization. -/
def jfuel : JsonVal → Nat
  | .jnull => 1
  | .jbool _ => 1
  | .jint _ => 1
  | .jstr _ => 1
  | .jarr items => jfuelL items + 1
  | .jobj members => jfuelM members + 1
def jfuelL : JsonList → Nat
  | .nil => 1
  | .cons v tl => max (jfuel v) (jfuelL tl) + 1
def jfuelM : JsonMembers → Nat
  | .nil => 1
  | .cons _ v tl => max (jfuel v) (jfuelM tl) + 1
end

/-- Heads of lists after which a JSON number parse may resume: the empty
list or a non-digit first character. -/
def ndg (l : Chars) : Prop :=
  match l with
  | [] => True
  | c :: _ => digitCh c = false

/-- Heads of lists that survive trimming and whitespace skipping: a
non-empty list whose first character is not JavaScript whitespace. -/
def headNonWs (l : Chars) : Prop :=
  match l with
  | [] => False
  | c :: _ => isJsWS c = false

/-- The byte-order-mark-plus-tagged-fence wrapping of the claim-C2
experiment: `"﻿" + "```json\n" + s + "\n```"`. -/
def fenceTagged (s : Chars) : Chars := '﻿' :: ("```json\n".data ++ (s ++ "\n```".data))

/-- The byte-order-mark-plus-untagged-fence wrapping of the claim-C2
experiment: `"﻿" + "```\n" + s + "\n```"`. -/
def fenceBare (s : Chars) : Chars := '﻿' :: ("```\n".data ++ (s ++ "\n```".data))

/-! Stringology: prefix tests and global pattern removal. -/

theorem leadsWith_append (p rest : Chars) : leadsWith p (p ++ rest) = true := by
  induction p with
  | nil => rfl
  | cons a as ih => simp [leadsWith, ih]

theorem leadsWith_trans (p q l : Chars) (h1 : leadsWith p q = true)
    (h2 : leadsWith q l = true) : leadsWith p l = true := by
  induction p generalizing q l with
  | nil => rfl
  | cons a as ih =>
    cases q with
    | nil => simp [leadsWith] at h1
    | cons b bs =>
      cases l with
      | nil => simp [leadsWith] at h2
      | cons c cs =>
        simp only [leadsWith, Bool.and_eq_true, beq_iff_eq] at h1 h2 ⊢
        exact ⟨h1.1.trans h2.1, ih bs cs h1.2 h2.2⟩

theorem leadsWith_newline (p : Chars) : ∀ l r : Chars, '\n' ∉ p →
    leadsWith p (l ++ '\n' :: r) = true → leadsWith p l = true := by
  induction p with
  | nil => intro l r _ _; rfl
  | cons a as ih =>
    intro l r hp h
    cases l with
    | nil =>
      simp only [List.nil_append, leadsWith, Bool.and_eq_true, beq_iff_eq] at h
      obtain ⟨ha, -⟩ := h
      subst ha
      exact absurd (List.mem_cons_self _ as) hp
    | cons b bs =>
      simp only [List.cons_append, leadsWith, Bool.and_eq_true, beq_iff_eq] at h ⊢
      exact ⟨h.1, ih bs r (fun hm => hp (List.mem_cons_of_mem a hm)) h.2⟩

theorem containsSub_cons (p : Chars) (c : Char) (cs : Chars) :
    containsSub p (c :: cs) = (leadsWith p (c :: cs) || containsSub p cs) := rfl

theorem stripAllAux_skip (p x y : Chars) : stripAllAux p x.length (x ++ y) = stripAllAux p 0 y := by
  induction x with
  | nil => rfl
  | cons a as ih => simpa [stripAllAux] using ih

theorem stripAllAux_match_head (p rest : Chars) (hp : p ≠ []) :
    stripAllAux p 0 (p ++ rest) = stripAllAux p 0 rest := by
  cases p with
  | nil => exact absurd rfl hp
  | cons c p' =>
    have hlw : leadsWith (c :: p') (c :: (p' ++ rest)) = true := by
      simpa using leadsWith_append (c :: p') rest
    have h1 : stripAllAux (c :: p') 0 (c :: (p' ++ rest))
        = stripAllAux (c :: p') ((c :: p').length - 1) (p' ++ rest) := by
      simp [stripAllAux, hlw]
    have h2 : (c :: p').length - 1 = p'.length := by simp
    calc stripAllAux (c :: p') 0 ((c :: p') ++ rest)
        = stripAllAux (c :: p') ((c :: p').length - 1) (p' ++ rest) := h1
      _ = stripAllAux (c :: p') p'.length (p' ++ rest) := by rw [h2]
      _ = stripAllAux (c :: p') 0 rest := stripAllAux_skip _ _ _

theorem stripAllAux_no_match (p : Chars) (c : Char) (cs : Chars)
    (h : leadsWith p (c :: cs) = false) :
    stripAllAux p 0 (c :: cs) = c :: stripAllAux p 0 cs := by
  simp [stripAllAux, h]

theorem stripAll_id_of_not_contains (p l : Chars) (h : containsSub p l = false) :
    stripAll p l = l := by
  unfold stripAll
  induction l with
  | nil => rfl
  | cons c cs ih =>
    rw [containsSub_cons, Bool.or_eq_false_iff] at h
    rw [stripAllAux_no_match p c cs h.1, ih h.2]

theorem strip_keep_tagged (l : Chars) (h : containsSub tickFence l = false) :
    stripAllAux tickJsonFence 0 (l ++ '\n' :: tickFence) = l ++ '\n' :: tickFence := by
  induction l with
  | nil => decide
  | cons c l' ih =>
    rw [containsSub_cons, Bool.or_eq_false_iff] at h
    have hnl : leadsWith tickJsonFence ((c :: l') ++ '\n' :: tickFence) = false := by
      cases hb : leadsWith tickJsonFence ((c :: l') ++ '\n' :: tickFence) with
      | false => rfl
      | true =>
        have h3 := leadsWith_trans tickFence tickJsonFence _ (by decide) hb
        have h4 := leadsWith_newline tickFence (c :: l') tickFence (by decide) h3
        simp [h.1] at h4
    rw [List.cons_append, stripAllAux_no_match _ _ _ (by simpa using hnl), ih h.2]

theorem strip_eat_fence (l : Chars) (h : containsSub tickFence l = false) :
    stripAllAux tickFence 0 (l ++ '\n' :: tickFence) = l ++ ['\n'] := by
  induction l with
  | nil => decide
  | cons c l' ih =>
    rw [containsSub_cons, Bool.or_eq_false_iff] at h
    have hnl : leadsWith tickFence ((c :: l') ++ '\n' :: tickFence) = false := by
      cases hb : leadsWith tickFence ((c :: l') ++ '\n' :: tickFence) with
      | false => rfl
      | true =>
        have h4 := leadsWith_newline tickFence (c :: l') tickFence (by decide) hb
        simp [h.1] at h4
    rw [List.cons_append, stripAllAux_no_match _ _ _ (by simpa using hnl), ih h.2]
    simp

/-! Character classification and trimming. -/

theorem isJsonWs_isJsWS (c : Char) (h : isJsonWs c = true) : isJsWS c = true := by
  simp only [isJsonWs, Bool.or_eq_true, decide_eq_true_eq] at h
  rcases h with ((h | h) | h) | h <;> subst h <;> decide

theorem not_isJsonWs_of_not_isJsWS (c : Char) (h : isJsWS c = false) : isJsonWs c = false := by
  cases hb : isJsonWs c with
  | false => rfl
  | true => simp [isJsonWs_isJsWS c hb] at h

theorem digitCh_bounds (c : Char) (h : digitCh c = true) : 48 ≤ c.toNat ∧ c.toNat ≤ 57 := by
  simpa [digitCh, Bool.and_eq_true, decide_eq_true_eq] using h

theorem digitCh_isJsWS (c : Char) (h : digitCh c = true) : isJsWS c = false := by
  obtain ⟨h1, h2⟩ := digitCh_bounds c h
  simp only [isJsWS, Bool.or_eq_false_iff, Bool.and_eq_false_iff, decide_eq_false_iff_not]
  omega

theorem digitCh_ne (c : Char) (h : digitCh c = true) :
    c ≠ 'n' ∧ c ≠ 't' ∧ c ≠ 'f' ∧ c ≠ '"' ∧ c ≠ '[' ∧ c ≠ '{' ∧ c ≠ '-' ∧ c ≠ ']' ∧
    c ≠ '}' ∧ c ≠ ',' ∧ c ≠ ':' ∧ c ≠ '\\' ∧ c ≠ '\uFEFF' := by
  refine ⟨?_, ?_, ?_, ?_, ?_, ?_, ?_, ?_, ?_, ?_, ?_, ?_, ?_⟩ <;>
    (rintro rfl; exact absurd h (by decide))

theorem skipWs_cons_of_neg (c : Char) (t : Chars) (h : isJsonWs c = false) :
    skipWs (c :: t) = c :: t := by
  unfold skipWs
  exact List.dropWhile_cons_of_neg (by simp [h])

theorem jsTrim_eq_self (l : Chars) (h1 : headNonWs l) (h2 : headNonWs l.reverse) :
    jsTrim l = l := by
  unfold jsTrim
  cases l with
  | nil => exact h1.elim
  | cons c t =>
    have hc : isJsWS c = false := h1
    have hdw1 : List.dropWhile isJsWS (c :: t) = c :: t :=
      List.dropWhile_cons_of_neg (by simp [hc])
    rw [hdw1]
    cases hr : (c :: t).reverse with
    | nil => simp at hr
    | cons d u =>
      have hd : isJsWS d = false := by rw [hr] at h2; exact h2
      have hdw2 : List.dropWhile isJsWS (d :: u) = d :: u :=
        List.dropWhile_cons_of_neg (by simp [hd])
      rw [hdw2]
      have h' := congrArg List.reverse hr
      rw [List.reverse_reverse] at h'
      exact h'.symm

theorem jsTrim_wrap (s : Chars) (h1 : headNonWs s) (h2 : headNonWs s.reverse) :
    jsTrim ('\uFEFF' :: '\n' :: (s ++ ['\n'])) = s := by
  unfold jsTrim
  have hb1 : List.dropWhile isJsWS ('\uFEFF' :: '\n' :: (s ++ ['\n']))
      = List.dropWhile isJsWS ('\n' :: (s ++ ['\n'])) :=
    List.dropWhile_cons_of_pos (by decide)
  have hb2 : List.dropWhile isJsWS ('\n' :: (s ++ ['\n']))
      = List.dropWhile isJsWS (s ++ ['\n']) :=
    List.dropWhile_cons_of_pos (by decide)
  rw [hb1, hb2]
  cases s with
  | nil => exact h1.elim
  | cons c t =>
    have hc : isJsWS c = false := h1
    have hdw1 : List.dropWhile isJsWS ((c :: t) ++ ['\n']) = (c :: t) ++ ['\n'] :=
      List.dropWhile_cons_of_neg (by simp [hc])
    rw [hdw1]
    have hrw : ((c :: t) ++ ['\n']).reverse = '\n' :: (c :: t).reverse := by
      rw [List.reverse_append]
      rfl
    have hb3 : List.dropWhile isJsWS ('\n' :: (c :: t).reverse)
        = List.dropWhile isJsWS ((c :: t).reverse) :=
      List.dropWhile_cons_of_pos (by decide)
    rw [hrw, hb3]
    cases hr : (c :: t).reverse with
    | nil => simp at hr
    | cons d u =>
      have hd : isJsWS d = false := by rw [hr] at h2; exact h2
      have hdw2 : List.dropWhile isJsWS (d :: u) = d :: u :=
        List.dropWhile_cons_of_neg (by simp [hd])
      rw [hdw2]
      have h' := congrArg List.reverse hr
      rw [List.reverse_reverse] at h'
      exact h'.symm

/-! Decimal digits. -/

theorem digitChar_digitCh : ∀ d : Nat, d < 10 → digitCh (Nat.digitChar d) = true := by decide

theorem digitVal_digitChar : ∀ d : Nat, d < 10 → digitVal (Nat.digitChar d) = d := by decide

theorem digitChar_ne_zero : ∀ d : Nat, d < 10 → 0 < d → Nat.digitChar d ≠ '0' := by decide

theorem hexVal_digitChar : ∀ d : Nat, d < 16 → hexVal (Nat.digitChar d) = d := by decide

theorem natCharsAux_succ (m k : Nat) :
    natCharsAux (m + 1) k =
      if k < 10 then [Nat.digitChar k] else natCharsAux m (k / 10) ++ [Nat.digitChar (k % 10)] :=
  rfl

theorem natCharsAux_congr : ∀ f g n : Nat, n < f → n < g → natCharsAux f n = natCharsAux g n := by
  intro f
  induction f with
  | zero => intro g n h _; exact absurd h (Nat.not_lt_zero n)
  | succ f ih =>
    intro g n hf hg
    cases g with
    | zero => exact absurd hg (Nat.not_lt_zero n)
    | succ g =>
      simp only [natCharsAux]
      by_cases h10 : n < 10
      · simp [h10]
      · have hd : n / 10 < n := Nat.div_lt_self (by omega) (by omega)
        rw [if_neg h10, if_neg h10, ih g (n / 10) (by omega) (by omega)]

theorem natChars_eq (n : Nat) :
    natChars n =
      if n < 10 then [Nat.digitChar n] else natChars (n / 10) ++ [Nat.digitChar (n % 10)] := by
  show natCharsAux (n + 1) n = _
  rw [natCharsAux_succ]
  by_cases h10 : n < 10
  · rw [if_pos h10, if_pos h10]
  · have hd : n / 10 < n := Nat.div_lt_self (by omega) (by omega)
    rw [if_neg h10, if_neg h10,
      natCharsAux_congr n (n / 10 + 1) (n / 10) (by omega) (by omega)]
    rfl

theorem natChars_all_digits : ∀ n : Nat, ∀ c ∈ natChars n, digitCh c = true := by
  intro n
  induction n using Nat.strong_induction_on with
  | _ n ih =>
    intro c hc
    rw [natChars_eq] at hc
    by_cases h10 : n < 10
    · rw [if_pos h10] at hc
      simp only [List.mem_singleton] at hc
      subst hc
      exact digitChar_digitCh n h10
    · rw [if_neg h10] at hc
      rcases List.mem_append.mp hc with hc | hc
      · exact ih (n / 10) (Nat.div_lt_self (by omega) (by omega)) c hc
      · simp only [List.mem_singleton] at hc
        subst hc
        exact digitChar_digitCh (n % 10) (Nat.mod_lt n (by omega))

theorem natChars_head : ∀ n : Nat,
    ∃ c t, natChars n = c :: t ∧ digitCh c = true ∧ (0 < n → c ≠ '0') := by
  intro n
  induction n using Nat.strong_induction_on with
  | _ n ih =>
    rw [natChars_eq]
    by_cases h10 : n < 10
    · exact ⟨Nat.digitChar n, [], by simp [h10], digitChar_digitCh n h10,
        fun hn => digitChar_ne_zero n h10 hn⟩
    · obtain ⟨c, t, heq, hd, hz⟩ := ih (n / 10) (Nat.div_lt_self (by omega) (by omega))
      exact ⟨c, t ++ [Nat.digitChar (n % 10)], by simp [h10, heq], hd,
        fun _ => hz (by omega)⟩

theorem natOfDigits_append (xs : Chars) (c : Char) :
    natOfDigits (xs ++ [c]) = 10 * natOfDigits xs + digitVal c := by
  unfold natOfDigits
  rw [List.foldl_append]
  simp [Nat.mul_comm]

theorem natOfDigits_natChars : ∀ n : Nat, natOfDigits (natChars n) = n := by
  intro n
  induction n using Nat.strong_induction_on with
  | _ n ih =>
    rw [natChars_eq]
    by_cases h10 : n < 10
    · rw [if_pos h10]
      show natOfDigits [Nat.digitChar n] = n
      have : natOfDigits [Nat.digitChar n] = digitVal (Nat.digitChar n) := by
        simp [natOfDigits]
      rw [this, digitVal_digitChar n h10]
    · rw [if_neg h10, natOfDigits_append,
        ih (n / 10) (Nat.div_lt_self (by omega) (by omega)),
        digitVal_digitChar (n % 10) (Nat.mod_lt n (by omega))]
      omega

theorem takeWhile_append_all (p : Char → Bool) :
    ∀ xs ys : Chars, (∀ c ∈ xs, p c = true) →
      (xs ++ ys).takeWhile p = xs ++ ys.takeWhile p := by
  intro xs
  induction xs with
  | nil => intro ys _; rfl
  | cons a as ih =>
    intro ys h
    rw [List.cons_append, List.takeWhile_cons_of_pos (h a (List.mem_cons_self a as)),
      ih ys (fun c hc => h c (List.mem_cons_of_mem a hc))]
    rfl

theorem dropWhile_append_all (p : Char → Bool) :
    ∀ xs ys : Chars, (∀ c ∈ xs, p c = true) →
      (xs ++ ys).dropWhile p = ys.dropWhile p := by
  intro xs
  induction xs with
  | nil => intro ys _; rfl
  | cons a as ih =>
    intro ys h
    rw [List.cons_append, List.dropWhile_cons_of_pos (h a (List.mem_cons_self a as)),
      ih ys (fun c hc => h c (List.mem_cons_of_mem a hc))]

theorem takeWhile_ndg (rest : Chars) (h : ndg rest) : rest.takeWhile digitCh = [] := by
  cases rest with
  | nil => rfl
  | cons c t =>
    have hc : digitCh c = false := h
    exact List.takeWhile_cons_of_neg (by simp [hc])

theorem dropWhile_ndg (rest : Chars) (h : ndg rest) : rest.dropWhile digitCh = rest := by
  cases rest with
  | nil => rfl
  | cons c t =>
    have hc : digitCh c = false := h
    exact List.dropWhile_cons_of_neg (by simp [hc])

/-! Round trip for JSON string bodies. -/

theorem escBody_length (s : Chars) : s.length ≤ (escBody s).length := by
  induction s with
  | nil => simp [escBody]
  | cons c cs ih =>
    have h1 : 1 ≤ (escChar c).length := by
      unfold escChar
      split_ifs <;> simp
    show (c :: cs).length ≤ (escChar c ++ escBody cs).length
    rw [List.length_cons, List.length_append]
    omega

theorem psb_quote (f : Nat) (X : Chars) : parseStrBody (f + 1) ('"' :: X) = some ([], X) := rfl

theorem psb_esc_quote (f : Nat) (X : Chars) :
    parseStrBody (f + 1) ('\\' :: '"' :: X)
      = (parseStrBody f X).map (fun p => ('"' :: p.1, p.2)) := rfl

theorem psb_esc_back (f : Nat) (X : Chars) :
    parseStrBody (f + 1) ('\\' :: '\\' :: X)
      = (parseStrBody f X).map (fun p => ('\\' :: p.1, p.2)) := rfl

theorem psb_esc_b (f : Nat) (X : Chars) :
    parseStrBody (f + 1) ('\\' :: 'b' :: X)
      = (parseStrBody f X).map (fun p => ('\x08' :: p.1, p.2)) := rfl

theorem psb_esc_t (f : Nat) (X : Chars) :
    parseStrBody (f + 1) ('\\' :: 't' :: X)
      = (parseStrBody f X).map (fun p => ('\x09' :: p.1, p.2)) := rfl

theorem psb_esc_n (f : Nat) (X : Chars) :
    parseStrBody (f + 1) ('\\' :: 'n' :: X)
      = (parseStrBody f X).map (fun p => ('\x0a' :: p.1, p.2)) := rfl

theorem psb_esc_f (f : Nat) (X : Chars) :
    parseStrBody (f + 1) ('\\' :: 'f' :: X)
      = (parseStrBody f X).map (fun p => ('\x0c' :: p.1, p.2)) := rfl

theorem psb_esc_r (f : Nat) (X : Chars) :
    parseStrBody (f + 1) ('\\' :: 'r' :: X)
      = (parseStrBody f X).map (fun p => ('\x0d' :: p.1, p.2)) := rfl

theorem psb_esc_u (f : Nat) (a b d e : Char) (X : Chars) :
    parseStrBody (f + 1) ('\\' :: 'u' :: a :: b :: d :: e :: X) =
      (if hexVal a < 16 && hexVal b < 16 && hexVal d < 16 && hexVal e < 16 then
        if 0xD800 ≤ hexVal a * 4096 + hexVal b * 256 + hexVal d * 16 + hexVal e &&
            hexVal a * 4096 + hexVal b * 256 + hexVal d * 16 + hexVal e ≤ 0xDFFF then
          none
        else
          (parseStrBody f X).map
            (fun p =>
              (Char.ofNat (hexVal a * 4096 + hexVal b * 256 + hexVal d * 16 + hexVal e) :: p.1,
               p.2))
      else none) := rfl

theorem psb_plain (f : Nat) (c : Char) (X : Chars) (hq : ¬c = '"') (hb : ¬c = '\\')
    (hc : ¬c.toNat < 32) :
    parseStrBody (f + 1) (c :: X) = (parseStrBody f X).map (fun p => (c :: p.1, p.2)) := by
  show (if c = '"' then some ([], X)
      else if c = '\\' then
        match X with
        | [] => none
        | e :: r =>
          if e = '"' then (parseStrBody f r).map (fun p => ('"' :: p.1, p.2))
          else if e = '\\' then (parseStrBody f r).map (fun p => ('\\' :: p.1, p.2))
          else if e = '/' then (parseStrBody f r).map (fun p => ('/' :: p.1, p.2))
          else if e = 'b' then (parseStrBody f r).map (fun p => ('\x08' :: p.1, p.2))
          else if e = 'f' then (parseStrBody f r).map (fun p => ('\x0c' :: p.1, p.2))
          else if e = 'n' then (parseStrBody f r).map (fun p => ('\x0a' :: p.1, p.2))
          else if e = 'r' then (parseStrBody f r).map (fun p => ('\x0d' :: p.1, p.2))
          else if e = 't' then (parseStrBody f r).map (fun p => ('\x09' :: p.1, p.2))
          else if e = 'u' then
            match r with
            | h1 :: h2 :: h3 :: h4 :: r2 =>
              if hexVal h1 < 16 && hexVal h2 < 16 && hexVal h3 < 16 && hexVal h4 < 16 then
                if 0xD800 ≤ hexVal h1 * 4096 + hexVal h2 * 256 + hexVal h3 * 16 + hexVal h4 &&
                    hexVal h1 * 4096 + hexVal h2 * 256 + hexVal h3 * 16 + hexVal h4 ≤ 0xDFFF then
                  none
                else
                  (parseStrBody f r2).map
                    (fun p =>
                      (Char.ofNat
                          (hexVal h1 * 4096 + hexVal h2 * 256 + hexVal h3 * 16 + hexVal h4)
                         :: p.1,
                       p.2))
              else none
            | _ => none
          else none
      else if c.toNat < 32 then none
      else (parseStrBody f X).map (fun p => (c :: p.1, p.2)))
    = (parseStrBody f X).map (fun p => (c :: p.1, p.2))
  rw [if_neg hq, if_neg hb, if_neg hc]

theorem parseStrBody_rt :
    ∀ (s : Chars) (f : Nat) (rest : Chars), s.length < f →
      parseStrBody f (escBody s ++ '"' :: rest) = some (s, rest) := by
  intro s
  induction s with
  | nil =>
    intro f rest hf
    obtain ⟨f', rfl⟩ : ∃ f', f = f' + 1 := ⟨f - 1, by omega⟩
    exact psb_quote f' rest
  | cons c cs ih =>
    intro f rest hf
    obtain ⟨f', rfl⟩ : ∃ f', f = f' + 1 := ⟨f - 1, by omega⟩
    have hcs : cs.length < f' := by
      have := List.length_cons c cs
      omega
    show parseStrBody (f' + 1) (escBody (c :: cs) ++ '"' :: rest) = some (c :: cs, rest)
    rw [show escBody (c :: cs) = escChar c ++ escBody cs from rfl, List.append_assoc]
    unfold escChar
    split_ifs with h1 h2 h3 h4 h5 h6 h7 h8
    · subst h1
      rw [List.cons_append, List.cons_append, List.nil_append, psb_esc_quote, ih f' rest hcs]
      rfl
    · subst h2
      rw [List.cons_append, List.cons_append, List.nil_append, psb_esc_back, ih f' rest hcs]
      rfl
    · subst h3
      rw [List.cons_append, List.cons_append, List.nil_append, psb_esc_b, ih f' rest hcs]
      rfl
    · subst h4
      rw [List.cons_append, List.cons_append, List.nil_append, psb_esc_t, ih f' rest hcs]
      rfl
    · subst h5
      rw [List.cons_append, List.cons_append, List.nil_append, psb_esc_n, ih f' rest hcs]
      rfl
    · subst h6
      rw [List.cons_append, List.cons_append, List.nil_append, psb_esc_f, ih f' rest hcs]
      rfl
    · subst h7
      rw [List.cons_append, List.cons_append, List.nil_append, psb_esc_r, ih f' rest hcs]
      rfl
    · have g1 : c.toNat / 16 < 16 := by omega
      have g2 : c.toNat % 16 < 16 := by omega
      have e0 : hexVal '0' = 0 := by decide
      have e1 : hexVal (Nat.digitChar (c.toNat / 16)) = c.toNat / 16 := hexVal_digitChar _ g1
      have e2 : hexVal (Nat.digitChar (c.toNat % 16)) = c.toNat % 16 := hexVal_digitChar _ g2
      have hns : ¬(55296 ≤ c.toNat / 16 * 16 + c.toNat % 16) := by omega
      have hcode : c.toNat / 16 * 16 + c.toNat % 16 = c.toNat := by omega
      simp only [List.cons_append, List.nil_append]
      rw [psb_esc_u, e0, e1, e2]
      simp only [Nat.zero_mul, Nat.zero_add]
      rw [if_pos (by simp [g1, g2]), if_neg (by simp [hns]), ih f' rest hcs, hcode]
      simp
    · simp only [List.cons_append, List.nil_append]
      rw [psb_plain f' c _ h1 h2 h8, ih f' rest hcs]
      rfl

theorem parseStrBodyTop_rt (s rest : Chars) :
    parseStrBodyTop (escBody s ++ '"' :: rest) = some (s, rest) := by
  unfold parseStrBodyTop
  have h1 := escBody_length s
  have h2 : s.length < (escBody s ++ '"' :: rest).length + 1 := by
    rw [List.length_append, List.length_cons]
    omega
  exact parseStrBody_rt s _ rest h2

/-! Unfolding equations for the fueled parser and the serializer. -/

theorem parseVal_succ (f : Nat) (l : Chars) :
    parseVal (f + 1) l =
      (match skipWs l with
      | [] => none
      | c :: r =>
        if c = 'n' then (if leadsWith ['u', 'l', 'l'] r then some (.jnull, r.drop 3) else none)
        else if c = 't' then
          (if leadsWith ['r', 'u', 'e'] r then some (.jbool true, r.drop 3) else none)
        else if c = 'f' then
          (if leadsWith ['a', 'l', 's', 'e'] r then some (.jbool false, r.drop 4) else none)
        else if c = '"' then (parseStrBodyTop r).map (fun p => (.jstr p.1, p.2))
        else if c = '[' then
          (if headIs (skipWs r) ']' then some (.jarr .nil, (skipWs r).drop 1)
           else (parseItems f (skipWs r)).map (fun p => (.jarr p.1, p.2)))
        else if c = '{' then
          (if headIs (skipWs r) '}' then some (.jobj .nil, (skipWs r).drop 1)
           else (parseMembers f (skipWs r)).map (fun p => (.jobj p.1, p.2)))
        else if c = '-' then parseNeg r
        else if c = '0' then some (.jint 0, r)
        else if digitCh c then
          some (.jint (natOfDigits ((c :: r).takeWhile digitCh)), (c :: r).dropWhile digitCh)
        else none) := rfl

theorem parseItems_succ (f : Nat) (l : Chars) :
    parseItems (f + 1) l =
      (match parseVal f l with
      | none => none
      | some (v, r) =>
        if headIs (skipWs r) ',' then
          (parseItems f ((skipWs r).drop 1)).map (fun p => (.cons v p.1, p.2))
        else if headIs (skipWs r) ']' then some (.cons v .nil, (skipWs r).drop 1)
        else none) := rfl

theorem parseMembers_succ (f : Nat) (l : Chars) :
    parseMembers (f + 1) l =
      (match skipWs l with
      | [] => none
      | c :: r =>
        if c = '"' then
          match parseStrBodyTop r with
          | none => none
          | some (k, r2) =>
            if headIs (skipWs r2) ':' then
              match parseVal f ((skipWs r2).drop 1) with
              | none => none
              | some (v, r3) =>
                if headIs (skipWs r3) ',' then
                  (parseMembers f ((skipWs r3).drop 1)).map (fun p => (.cons k v p.1, p.2))
                else if headIs (skipWs r3) '}' then some (.cons k v .nil, (skipWs r3).drop 1)
                else none
            else none
        else none) := rfl

theorem serVal_jnull : serVal .jnull = ['n', 'u', 'l', 'l'] := rfl

theorem serVal_jtrue : serVal (.jbool true) = ['t', 'r', 'u', 'e'] := rfl

theorem serVal_jfalse : serVal (.jbool false) = ['f', 'a', 'l', 's', 'e'] := rfl

theorem serVal_jint (n : Int) : serVal (.jint n) = intChars n := rfl

theorem serVal_jstr (s : Chars) : serVal (.jstr s) = '"' :: (escBody s ++ ['"']) := rfl

theorem serVal_jarr (items : JsonList) :
    serVal (.jarr items) = '[' :: (serList items ++ [']']) := rfl

theorem serVal_jobj (ms : JsonMembers) :
    serVal (.jobj ms) = '{' :: (serMembers ms ++ ['}']) := rfl

theorem serList_one (v : JsonVal) : serList (.cons v .nil) = serVal v := rfl

theorem serList_cons2 (v w : JsonVal) (tl : JsonList) :
    serList (.cons v (.cons w tl)) = serVal v ++ ',' :: serList (.cons w tl) := rfl

theorem serMembers_one (k : Chars) (v : JsonVal) :
    serMembers (.cons k v .nil) = '"' :: (escBody k ++ '"' :: ':' :: serVal v) := rfl

theorem serMembers_cons2 (k : Chars) (v : JsonVal) (k2 : Chars) (w : JsonVal) (tl : JsonMembers) :
    serMembers (.cons k v (.cons k2 w tl))
      = ('"' :: (escBody k ++ '"' :: ':' :: serVal v)) ++ ',' :: serMembers (.cons k2 w tl) := rfl

theorem jfuel_jarr (items : JsonList) : jfuel (.jarr items) = jfuelL items + 1 := rfl

theorem jfuel_jobj (ms : JsonMembers) : jfuel (.jobj ms) = jfuelM ms + 1 := rfl

theorem jfuelL_cons (v : JsonVal) (tl : JsonList) :
    jfuelL (.cons v tl) = max (jfuel v) (jfuelL tl) + 1 := rfl

theorem jfuelM_cons (k : Chars) (v : JsonVal) (tl : JsonMembers) :
    jfuelM (.cons k v tl) = max (jfuel v) (jfuelM tl) + 1 := rfl

/-! Heads and last characters of serialized values. -/

theorem natChars_last (n : Nat) :
    ∃ c t, (natChars n).reverse = c :: t ∧ digitCh c = true := by
  rw [natChars_eq]
  by_cases h10 : n < 10
  · exact ⟨Nat.digitChar n, [], by simp [h10], digitChar_digitCh n h10⟩
  · refine ⟨Nat.digitChar (n % 10), (natChars (n / 10)).reverse, ?_,
      digitChar_digitCh (n % 10) (Nat.mod_lt n (by omega))⟩
    simp [h10]

theorem serVal_head_spec (v : JsonVal) :
    ∃ c t, serVal v = c :: t ∧ isJsWS c = false ∧ c ≠ ']' ∧ c ≠ '}' := by
  cases v with
  | jnull => exact ⟨'n', ['u', 'l', 'l'], serVal_jnull, by decide, by decide, by decide⟩
  | jbool b =>
    cases b with
    | true => exact ⟨'t', ['r', 'u', 'e'], serVal_jtrue, by decide, by decide, by decide⟩
    | false => exact ⟨'f', ['a', 'l', 's', 'e'], serVal_jfalse, by decide, by decide, by decide⟩
  | jint n =>
    cases n with
    | ofNat m =>
      obtain ⟨c, t, heq, hd, -⟩ := natChars_head m
      refine ⟨c, t, ?_, digitCh_isJsWS c hd, (digitCh_ne c hd).2.2.2.2.2.2.2.1,
        (digitCh_ne c hd).2.2.2.2.2.2.2.2.1⟩
      rw [serVal_jint]
      exact heq
    | negSucc m =>
      exact ⟨'-', natChars (m + 1), rfl, by decide, by decide, by decide⟩
  | jstr s => exact ⟨'"', escBody s ++ ['"'], serVal_jstr s, by decide, by decide, by decide⟩
  | jarr items =>
    exact ⟨'[', serList items ++ [']'], serVal_jarr items, by decide, by decide, by decide⟩
  | jobj ms => exact ⟨'{', serMembers ms ++ ['}'], serVal_jobj ms, by decide, by decide, by decide⟩

theorem serVal_last_spec (v : JsonVal) :
    ∃ c t, (serVal v).reverse = c :: t ∧ isJsWS c = false := by
  cases v with
  | jnull => exact ⟨'l', ['l', 'u', 'n'], by decide, by decide⟩
  | jbool b =>
    cases b with
    | true => exact ⟨'e', ['u', 'r', 't'], by decide, by decide⟩
    | false => exact ⟨'e', ['s', 'l', 'a', 'f'], by decide, by decide⟩
  | jint n =>
    cases n with
    | ofNat m =>
      obtain ⟨c, t, heq, hd⟩ := natChars_last m
      exact ⟨c, t, by rw [serVal_jint]; exact heq, digitCh_isJsWS c hd⟩
    | negSucc m =>
      obtain ⟨c, t, heq, hd⟩ := natChars_last (m + 1)
      refine ⟨c, t ++ ['-'], ?_, digitCh_isJsWS c hd⟩
      rw [serVal_jint, show intChars (Int.negSucc m) = '-' :: natChars (m + 1) from rfl,
        List.reverse_cons, heq]
      rfl
  | jstr s =>
    refine ⟨'"', (escBody s).reverse ++ ['"'], ?_, by decide⟩
    rw [serVal_jstr, List.reverse_cons, List.reverse_append]
    rfl
  | jarr items =>
    refine ⟨']', (serList items).reverse ++ ['['], ?_, by decide⟩
    rw [serVal_jarr, List.reverse_cons, List.reverse_append]
    rfl
  | jobj ms =>
    refine ⟨'}', (serMembers ms).reverse ++ ['{'], ?_, by decide⟩
    rw [serVal_jobj, List.reverse_cons, List.reverse_append]
    rfl

theorem skipWs_cons_nonws (c : Char) (t : Chars) (h : isJsWS c = false) :
    skipWs (c :: t) = c :: t :=
  skipWs_cons_of_neg c t (not_isJsonWs_of_not_isJsWS c h)

theorem serList_head_spec (v : JsonVal) (tl : JsonList) :
    ∃ c t, serList (.cons v tl) = c :: t ∧ isJsWS c = false ∧ c ≠ ']' ∧ c ≠ '}' := by
  obtain ⟨c, t, heq, h1, h2, h3⟩ := serVal_head_spec v
  cases tl with
  | nil => exact ⟨c, t, by rw [serList_one, heq], h1, h2, h3⟩
  | cons w tl2 =>
    exact ⟨c, t ++ ',' :: serList (.cons w tl2), by rw [serList_cons2, heq]; rfl, h1, h2, h3⟩

theorem take_drop_natChars (n : Nat) (r : Chars) (hr : ndg r) :
    (natChars n ++ r).takeWhile digitCh = natChars n ∧
      (natChars n ++ r).dropWhile digitCh = r := by
  constructor
  · rw [takeWhile_append_all digitCh _ r (natChars_all_digits n), takeWhile_ndg r hr,
      List.append_nil]
  · rw [dropWhile_append_all digitCh _ r (natChars_all_digits n), dropWhile_ndg r hr]

/-! Round trip of the parser over the serializer. -/

theorem parseNeg_cons (c : Char) (r : Chars) :
    parseNeg (c :: r) =
      (if c = '0' then some (.jint 0, r)
      else if digitCh c then
        some (.jint (-(natOfDigits ((c :: r).takeWhile digitCh) : Int)),
              (c :: r).dropWhile digitCh)
      else none) := rfl

theorem headIs_cons (x : Char) (X : Chars) (ch : Char) :
    headIs (x :: X) ch = decide (x = ch) := rfl

theorem parseVal_digit (f : Nat) (c : Char) (r : Chars) (hd : digitCh c = true)
    (hc0 : ¬c = '0') :
    parseVal (f + 1) (c :: r) =
      some (.jint (natOfDigits ((c :: r).takeWhile digitCh)), (c :: r).dropWhile digitCh) := by
  obtain ⟨hn, ht, hff, hq, hlb, hlc, hmi, -⟩ := digitCh_ne c hd
  rw [parseVal_succ, skipWs_cons_nonws c r (digitCh_isJsWS c hd)]
  show (if c = 'n' then (if leadsWith ['u', 'l', 'l'] r then some (.jnull, r.drop 3) else none)
      else if c = 't' then
        (if leadsWith ['r', 'u', 'e'] r then some (.jbool true, r.drop 3) else none)
      else if c = 'f' then
        (if leadsWith ['a', 'l', 's', 'e'] r then some (.jbool false, r.drop 4) else none)
      else if c = '"' then (parseStrBodyTop r).map (fun p => (.jstr p.1, p.2))
      else if c = '[' then
        (if headIs (skipWs r) ']' then some (.jarr .nil, (skipWs r).drop 1)
         else (parseItems f (skipWs r)).map (fun p => (.jarr p.1, p.2)))
      else if c = '{' then
        (if headIs (skipWs r) '}' then some (.jobj .nil, (skipWs r).drop 1)
         else (parseMembers f (skipWs r)).map (fun p => (.jobj p.1, p.2)))
      else if c = '-' then parseNeg r
      else if c = '0' then some (.jint 0, r)
      else if digitCh c then
        some (.jint (natOfDigits ((c :: r).takeWhile digitCh)), (c :: r).dropWhile digitCh)
      else none)
    = some (.jint (natOfDigits ((c :: r).takeWhile digitCh)), (c :: r).dropWhile digitCh)
  rw [if_neg hn, if_neg ht, if_neg hff, if_neg hq, if_neg hlb, if_neg hlc, if_neg hmi,
    if_neg hc0, if_pos hd]

theorem ndg_cons (c : Char) (t : Chars) (h : digitCh c = false) : ndg (c :: t) := h

mutual
theorem parseVal_rt : ∀ (v : JsonVal) (f : Nat) (rest : Chars), jfuel v ≤ f → ndg rest →
    parseVal f (serVal v ++ rest) = some (v, rest)
  | .jnull, f, rest, hf, _ => by
    have hf1 : 1 ≤ f := hf
    obtain ⟨f', rfl⟩ : ∃ f', f = f' + 1 := ⟨f - 1, by omega⟩
    rw [serVal_jnull]
    simp only [List.cons_append, List.nil_append]
    rw [parseVal_succ, skipWs_cons_nonws 'n' _ (by decide)]
    simp [leadsWith]
  | .jbool true, f, rest, hf, _ => by
    have hf1 : 1 ≤ f := hf
    obtain ⟨f', rfl⟩ : ∃ f', f = f' + 1 := ⟨f - 1, by omega⟩
    rw [serVal_jtrue]
    simp only [List.cons_append, List.nil_append]
    rw [parseVal_succ, skipWs_cons_nonws 't' _ (by decide)]
    simp [leadsWith]
  | .jbool false, f, rest, hf, _ => by
    have hf1 : 1 ≤ f := hf
    obtain ⟨f', rfl⟩ : ∃ f', f = f' + 1 := ⟨f - 1, by omega⟩
    rw [serVal_jfalse]
    simp only [List.cons_append, List.nil_append]
    rw [parseVal_succ, skipWs_cons_nonws 'f' _ (by decide)]
    simp [leadsWith]
  | .jint (.ofNat m), f, rest, hf, hr => by
    have hf1 : 1 ≤ f := hf
    obtain ⟨f', rfl⟩ : ∃ f', f = f' + 1 := ⟨f - 1, by omega⟩
    rw [serVal_jint, show intChars (Int.ofNat m) = natChars m from rfl]
    rcases Nat.eq_zero_or_pos m with rfl | hm
    · rw [show natChars 0 = ['0'] from rfl]
      simp only [List.cons_append, List.nil_append]
      rw [parseVal_succ, skipWs_cons_nonws '0' _ (by decide)]
      simp
    · obtain ⟨c, t, heq, hd, hz⟩ := natChars_head m
      have hc0 : ¬c = '0' := hz hm
      have hrw : c :: (t ++ rest) = natChars m ++ rest := by rw [← List.cons_append, ← heq]
      obtain ⟨htk, hdr⟩ := take_drop_natChars m rest hr
      rw [heq, List.cons_append, parseVal_digit f' c (t ++ rest) hd hc0, hrw, htk, hdr,
        natOfDigits_natChars]
      rfl
  | .jint (.negSucc m), f, rest, hf, hr => by
    have hf1 : 1 ≤ f := hf
    obtain ⟨f', rfl⟩ : ∃ f', f = f' + 1 := ⟨f - 1, by omega⟩
    rw [serVal_jint, show intChars (Int.negSucc m) = '-' :: natChars (m + 1) from rfl]
    simp only [List.cons_append]
    rw [parseVal_succ, skipWs_cons_nonws '-' _ (by decide)]
    obtain ⟨c, t, heq, hd, hz⟩ := natChars_head (m + 1)
    have hc0 : ¬c = '0' := hz (by omega)
    have hrw : c :: (t ++ rest) = natChars (m + 1) ++ rest := by rw [← List.cons_append, ← heq]
    obtain ⟨htk, hdr⟩ := take_drop_natChars (m + 1) rest hr
    have hstep : parseNeg (natChars (m + 1) ++ rest)
        = some (.jint (Int.negSucc m), rest) := by
      rw [heq, List.cons_append, parseNeg_cons, if_neg hc0, if_pos hd, hrw, htk, hdr,
        natOfDigits_natChars]
      have : (-(m + 1 : Nat) : Int) = Int.negSucc m := by
        rw [Int.negSucc_eq]
        push_cast
        ring
      rw [this]
    simp [hstep]
  | .jstr s, f, rest, hf, _ => by
    have hf1 : 1 ≤ f := hf
    obtain ⟨f', rfl⟩ : ∃ f', f = f' + 1 := ⟨f - 1, by omega⟩
    rw [serVal_jstr]
    simp only [List.cons_append, List.append_assoc, List.singleton_append]
    rw [parseVal_succ, skipWs_cons_nonws '"' _ (by decide)]
    simp [parseStrBodyTop_rt s rest]
  | .jarr items, f, rest, hf, _ => by
    have hf1 : 1 ≤ f := le_trans (by rw [jfuel_jarr]; omega) hf
    obtain ⟨f', rfl⟩ : ∃ f', f = f' + 1 := ⟨f - 1, by omega⟩
    rw [serVal_jarr]
    simp only [List.cons_append, List.append_assoc, List.singleton_append]
    rw [parseVal_succ, skipWs_cons_nonws '[' _ (by decide)]
    cases items with
    | nil =>
      rw [show serList .nil = ([] : Chars) from rfl]
      simp only [List.nil_append]
      simp [skipWs_cons_nonws ']' rest (by decide), headIs_cons, List.drop]
    | cons v tl =>
      obtain ⟨c, t, heqL, hws, hrb, -⟩ := serList_head_spec v tl
      have hfl : jfuelL (.cons v tl) ≤ f' := by
        have := hf
        rw [jfuel_jarr] at this
        omega
      have hres := parseItems_rt (.cons v tl) f' rest (by simp) hfl
      rw [heqL] at hres ⊢
      simp only [List.cons_append] at hres ⊢
      rw [skipWs_cons_nonws c _ hws]
      simp [headIs_cons, hrb, hres]
  | .jobj ms, f, rest, hf, _ => by
    have hf1 : 1 ≤ f := le_trans (by rw [jfuel_jobj]; omega) hf
    obtain ⟨f', rfl⟩ : ∃ f', f = f' + 1 := ⟨f - 1, by omega⟩
    rw [serVal_jobj]
    simp only [List.cons_append, List.append_assoc, List.singleton_append]
    rw [parseVal_succ, skipWs_cons_nonws '{' _ (by decide)]
    cases ms with
    | nil =>
      rw [show serMembers .nil = ([] : Chars) from rfl]
      simp only [List.nil_append]
      simp [skipWs_cons_nonws '}' rest (by decide), headIs_cons, List.drop]
    | cons k v tl =>
      have hfl : jfuelM (.cons k v tl) ≤ f' := by
        have := hf
        rw [jfuel_jobj] at this
        omega
      have hres := parseMembers_rt k v tl f' rest hfl
      have hshape : ∃ Y, serMembers (.cons k v tl) = '"' :: Y := by
        cases tl with
        | nil => exact ⟨escBody k ++ '"' :: ':' :: serVal v, serMembers_one k v⟩
        | cons k2 w tl2 =>
          exact ⟨(escBody k ++ '"' :: ':' :: serVal v) ++ ',' :: serMembers (.cons k2 w tl2),
            serMembers_cons2 k v k2 w tl2⟩
      obtain ⟨Y, heqM⟩ := hshape
      rw [heqM] at hres ⊢
      simp only [List.cons_append] at hres ⊢
      rw [skipWs_cons_nonws '"' _ (by decide)]
      simp [headIs_cons, hres]
termination_by v _ _ _ _ => sizeOf v

theorem parseItems_rt : ∀ (its : JsonList) (f : Nat) (rest : Chars), its ≠ .nil →
    jfuelL its ≤ f → parseItems f (serList its ++ ']' :: rest) = some (its, rest)
  | .nil, _, _, hne, _ => absurd rfl hne
  | .cons v tl, f, rest, _, hf => by
    have hf1 : 1 ≤ f := le_trans (by rw [jfuelL_cons]; omega) hf
    obtain ⟨f', rfl⟩ : ∃ f', f = f' + 1 := ⟨f - 1, by omega⟩
    have hfv : jfuel v ≤ f' := by
      have h1 : jfuel v ≤ max (jfuel v) (jfuelL tl) := Nat.le_max_left _ _
      have h2 := hf
      rw [jfuelL_cons] at h2
      omega
    rw [parseItems_succ]
    cases tl with
    | nil =>
      rw [serList_one, parseVal_rt v f' (']' :: rest) hfv (ndg_cons ']' rest (by decide))]
      simp [skipWs_cons_nonws ']' rest (by decide), headIs_cons, List.drop]
    | cons w tl2 =>
      have hft : jfuelL (.cons w tl2) ≤ f' := by
        have h1 : jfuelL (.cons w tl2) ≤ max (jfuel v) (jfuelL (.cons w tl2)) :=
          Nat.le_max_right _ _
        have h2 := hf
        rw [jfuelL_cons] at h2
        omega
      rw [serList_cons2, List.append_assoc]
      simp only [List.cons_append]
      rw [parseVal_rt v f' (',' :: (serList (.cons w tl2) ++ ']' :: rest)) hfv
        (ndg_cons ',' _ (by decide))]
      simp [skipWs_cons_nonws ',' (serList (.cons w tl2) ++ ']' :: rest) (by decide),
        headIs_cons, List.drop, parseItems_rt (.cons w tl2) f' rest (by simp) hft]
termination_by its _ _ _ _ => sizeOf its

theorem parseMembers_rt : ∀ (k : Chars) (v : JsonVal) (tl : JsonMembers) (f : Nat) (rest : Chars),
    jfuelM (.cons k v tl) ≤ f →
    parseMembers f (serMembers (.cons k v tl) ++ '}' :: rest) = some (.cons k v tl, rest)
  | k, v, tl, f, rest, hf => by
    have hf1 : 1 ≤ f := le_trans (by rw [jfuelM_cons]; omega) hf
    obtain ⟨f', rfl⟩ : ∃ f', f = f' + 1 := ⟨f - 1, by omega⟩
    have hfv : jfuel v ≤ f' := by
      have h1 : jfuel v ≤ max (jfuel v) (jfuelM tl) := Nat.le_max_left _ _
      have h2 := hf
      rw [jfuelM_cons] at h2
      omega
    rw [parseMembers_succ]
    cases tl with
    | nil =>
      rw [serMembers_one]
      simp only [List.cons_append, List.append_assoc]
      rw [skipWs_cons_nonws '"' _ (by decide)]
      have hkey := parseStrBodyTop_rt k (':' :: (serVal v ++ '}' :: rest))
      have hpv := parseVal_rt v f' ('}' :: rest) hfv (ndg_cons '}' rest (by decide))
      simp [hkey, hpv, skipWs_cons_nonws ':' (serVal v ++ '}' :: rest) (by decide),
        skipWs_cons_nonws '}' rest (by decide), headIs_cons, List.drop]
    | cons k2 w tl2 =>
      have hft : jfuelM (.cons k2 w tl2) ≤ f' := by
        have h1 : jfuelM (.cons k2 w tl2) ≤ max (jfuel v) (jfuelM (.cons k2 w tl2)) :=
          Nat.le_max_right _ _
        have h2 := hf
        rw [jfuelM_cons] at h2
        omega
      rw [serMembers_cons2]
      simp only [List.cons_append, List.append_assoc]
      rw [skipWs_cons_nonws '"' _ (by decide)]
      have hkey := parseStrBodyTop_rt k
        (':' :: (serVal v ++ ',' :: (serMembers (.cons k2 w tl2) ++ '}' :: rest)))
      have hpv := parseVal_rt v f'
        (',' :: (serMembers (.cons k2 w tl2) ++ '}' :: rest)) hfv (ndg_cons ',' _ (by decide))
      simp [hkey, hpv, skipWs_cons_nonws ':'
          (serVal v ++ ',' :: (serMembers (.cons k2 w tl2) ++ '}' :: rest)) (by decide),
        skipWs_cons_nonws ',' (serMembers (.cons k2 w tl2) ++ '}' :: rest) (by decide),
        headIs_cons, List.drop, parseMembers_rt k2 w tl2 f' rest hft]
termination_by k v tl _ _ _ => sizeOf v + sizeOf tl
end

/-! Fuel bound and the top-level parse of a serialized value. -/

mutual
theorem jfuel_le : ∀ v : JsonVal, jfuel v ≤ (serVal v).length + 1
  | .jnull => by rw [show jfuel .jnull = 1 from rfl]; omega
  | .jbool b => by rw [show jfuel (.jbool b) = 1 from rfl]; omega
  | .jint n => by rw [show jfuel (.jint n) = 1 from rfl]; omega
  | .jstr s => by rw [show jfuel (.jstr s) = 1 from rfl]; omega
  | .jarr items => by
    rw [jfuel_jarr, serVal_jarr]
    have h := jfuelL_le items
    have hlen : ('[' :: (serList items ++ [']'])).length = (serList items).length + 2 := by
      simp
    omega
  | .jobj ms => by
    rw [jfuel_jobj, serVal_jobj]
    have h := jfuelM_le ms
    have hlen : ('{' :: (serMembers ms ++ ['}'])).length = (serMembers ms).length + 2 := by
      simp
    omega
theorem jfuelL_le : ∀ its : JsonList, jfuelL its ≤ (serList its).length + 2
  | .nil => by rw [show jfuelL .nil = 1 from rfl]; omega
  | .cons v .nil => by
    rw [jfuelL_cons, serList_one, show jfuelL .nil = 1 from rfl]
    have h := jfuel_le v
    have hm : max (jfuel v) 1 ≤ (serVal v).length + 1 := max_le h (by omega)
    omega
  | .cons v (.cons w tl) => by
    rw [jfuelL_cons, serList_cons2]
    have h1 := jfuel_le v
    have h2 := jfuelL_le (.cons w tl)
    have hlen : (serVal v ++ ',' :: serList (.cons w tl)).length
        = (serVal v).length + (serList (.cons w tl)).length + 1 := by
      simp
      omega
    have hm : max (jfuel v) (jfuelL (.cons w tl))
        ≤ (serVal v).length + (serList (.cons w tl)).length + 2 :=
      max_le (by omega) (by omega)
    omega
theorem jfuelM_le : ∀ ms : JsonMembers, jfuelM ms ≤ (serMembers ms).length + 2
  | .nil => by rw [show jfuelM .nil = 1 from rfl]; omega
  | .cons k v .nil => by
    rw [jfuelM_cons, serMembers_one, show jfuelM .nil = 1 from rfl]
    have h := jfuel_le v
    have hlen : ('"' :: (escBody k ++ '"' :: ':' :: serVal v)).length
        = (escBody k).length + (serVal v).length + 3 := by
      simp
      omega
    have hm : max (jfuel v) 1 ≤ (serVal v).length + 1 := max_le h (by omega)
    omega
  | .cons k v (.cons k2 w tl) => by
    rw [jfuelM_cons, serMembers_cons2]
    have h1 := jfuel_le v
    have h2 := jfuelM_le (.cons k2 w tl)
    have hlen : (('"' :: (escBody k ++ '"' :: ':' :: serVal v))
        ++ ',' :: serMembers (.cons k2 w tl)).length
        = (escBody k).length + (serVal v).length + (serMembers (.cons k2 w tl)).length + 4 := by
      simp
      omega
    have hm : max (jfuel v) (jfuelM (.cons k2 w tl))
        ≤ (serVal v).length + (serMembers (.cons k2 w tl)).length + 2 :=
      max_le (by omega) (by omega)
    omega
end

theorem jsonParse_serVal (v : JsonVal) : jsonParse (serVal v) = some v := by
  unfold jsonParse
  have h := parseVal_rt v ((serVal v).length + 1) [] (jfuel_le v) trivial
  rw [List.append_nil] at h
  rw [h]
  rfl

theorem safeParseJSON_serVal (v : JsonVal) : safeParseJSON (serVal v) = .ok v := by
  unfold safeParseJSON
  obtain ⟨c, t, heq, hws, -, -⟩ := serVal_head_spec v
  obtain ⟨c', t', heq', hws'⟩ := serVal_last_spec v
  have htrim : jsTrim (serVal v) = serVal v :=
    jsTrim_eq_self _ (by rw [heq]; exact hws) (by rw [heq']; exact hws')
  have hcb : ¬c = '﻿' := by
    intro hE
    rw [hE] at hws
    exact absurd hws (by decide)
  have hbom : stripLeadingBOM (serVal v) = serVal v := by
    rw [heq]
    show (if c = '﻿' then t else c :: t) = c :: t
    rw [if_neg hcb]
  rw [htrim, hbom, jsonParse_serVal]

/-! The handler's code-fence cleaning on fenced, BOM-prefixed payloads. -/

theorem tickJsonFence_chars : tickJsonFence = ['`', '`', '`', 'j', 's', 'o', 'n'] := rfl

theorem tickFence_chars : tickFence = ['`', '`', '`'] := rfl

theorem containsSub_newline_cons (s : Chars) (h : containsSub tickFence s = false) :
    containsSub tickFence ('\n' :: s) = false := by
  rw [containsSub_cons, Bool.or_eq_false_iff]
  exact ⟨by simp [tickFence_chars, leadsWith], h⟩

theorem cleanModelOutput_fenceTagged (s : Chars) (h3 : containsSub tickFence s = false)
    (hh : headNonWs s) (hl : headNonWs s.reverse) :
    cleanModelOutput (fenceTagged s) = s := by
  have hns3 : containsSub tickFence ('\n' :: s) = false := containsSub_newline_cons s h3
  have e1 : stripAll tickJsonFence (fenceTagged s)
      = '﻿' :: (('\n' :: s) ++ '\n' :: tickFence) := by
    show stripAllAux tickJsonFence 0
        ('﻿' :: (tickJsonFence ++ (('\n' :: s) ++ '\n' :: tickFence)))
      = '﻿' :: (('\n' :: s) ++ '\n' :: tickFence)
    rw [stripAllAux_no_match _ _ _ (by simp [tickJsonFence_chars, leadsWith]),
      stripAllAux_match_head _ _ (by simp [tickJsonFence_chars]),
      strip_keep_tagged ('\n' :: s) hns3]
  have e2 : stripAll tickFence ('﻿' :: (('\n' :: s) ++ '\n' :: tickFence))
      = '﻿' :: (('\n' :: s) ++ ['\n']) := by
    show stripAllAux tickFence 0 ('﻿' :: (('\n' :: s) ++ '\n' :: tickFence)) = _
    rw [stripAllAux_no_match _ _ _ (by simp [tickFence_chars, leadsWith]),
      strip_eat_fence ('\n' :: s) hns3]
  unfold cleanModelOutput
  rw [e1, e2]
  exact jsTrim_wrap s hh hl

theorem cleanModelOutput_fenceBare (s : Chars) (h3 : containsSub tickFence s = false)
    (hh : headNonWs s) (hl : headNonWs s.reverse) :
    cleanModelOutput (fenceBare s) = s := by
  have hns3 : containsSub tickFence ('\n' :: s) = false := containsSub_newline_cons s h3
  have e1 : stripAll tickJsonFence (fenceBare s)
      = '﻿' :: '`' :: '`' :: '`' :: (('\n' :: s) ++ '\n' :: tickFence) := by
    show stripAllAux tickJsonFence 0
        ('﻿' :: '`' :: '`' :: '`' :: (('\n' :: s) ++ '\n' :: tickFence))
      = '﻿' :: '`' :: '`' :: '`' :: (('\n' :: s) ++ '\n' :: tickFence)
    rw [stripAllAux_no_match _ _ _ (by simp [tickJsonFence_chars, leadsWith]),
      stripAllAux_no_match _ _ _ (by simp [tickJsonFence_chars, leadsWith]),
      stripAllAux_no_match _ _ _ (by simp [tickJsonFence_chars, leadsWith]),
      stripAllAux_no_match _ _ _ (by simp [tickJsonFence_chars, leadsWith]),
      strip_keep_tagged ('\n' :: s) hns3]
  have e2 : stripAll tickFence
      ('﻿' :: '`' :: '`' :: '`' :: (('\n' :: s) ++ '\n' :: tickFence))
      = '﻿' :: (('\n' :: s) ++ ['\n']) := by
    show stripAllAux tickFence 0
        ('﻿' :: (tickFence ++ (('\n' :: s) ++ '\n' :: tickFence))) = _
    rw [stripAllAux_no_match _ _ _ (by simp [tickFence_chars, leadsWith]),
      stripAllAux_match_head _ _ (by simp [tickFence_chars]),
      strip_eat_fence ('\n' :: s) hns3]
  unfold cleanModelOutput
  rw [e1, e2]
  exact jsTrim_wrap s hh hl

/-! Claim C2. -/

/-- C2 (as amended): for every JSON value V whose serialization contains
no triple-backtick substring, prefixing a byte-order mark, wrapping in a
triple-backtick code fence (with or without the "json" language tag) and
passing the result through the Response Normalizer (the handler's
code-fence stripping followed by `safeParseJSON`) yields V back. -/
theorem claim_C2_roundtrip : ∀ v : JsonVal, containsSub tickFence (serVal v) = false →
    normalizeResponse (fenceTagged (serVal v)) = .ok v ∧
    normalizeResponse (fenceBare (serVal v)) = .ok v := by
  intro v h3
  obtain ⟨c, t, heq, hws, -, -⟩ := serVal_head_spec v
  obtain ⟨c', t', heq', hws'⟩ := serVal_last_spec v
  have hh : headNonWs (serVal v) := by rw [heq]; exact hws
  have hl : headNonWs (serVal v).reverse := by rw [heq']; exact hws'
  unfold normalizeResponse
  rw [cleanModelOutput_fenceTagged (serVal v) h3 hh hl,
    cleanModelOutput_fenceBare (serVal v) h3 hh hl, safeParseJSON_serVal]
  exact ⟨rfl, rfl⟩

/-- C2, witness: a concrete object value round-trips through the
byte-order-mark-plus-fence wrapping and the Normalizer. -/
theorem claim_C2_roundtrip_witness :
    containsSub tickFence (serVal (.jobj (.cons ['a'] (.jint 1) .nil))) = false ∧
    (normalizeResponse (fenceTagged (serVal (.jobj (.cons ['a'] (.jint 1) .nil))))
        = .ok (.jobj (.cons ['a'] (.jint 1) .nil)) ∧
      normalizeResponse (fenceBare (serVal (.jobj (.cons ['a'] (.jint 1) .nil))))
        = .ok (.jobj (.cons ['a'] (.jint 1) .nil))) :=
  ⟨rfl, claim_C2_roundtrip (.jobj (.cons ['a'] (.jint 1) .nil)) rfl⟩

/-- C2, counterexample to the claim as stated: for the JSON string value
"```" (whose serialization contains a triple backtick), the Normalizer
returns the empty string instead of a value deep-equal to the input,
because the handler's global fence replace also deletes backticks inside
JSON string literals. -/
theorem claim_C2_counterexample :
    normalizeResponse (fenceTagged (serVal (.jstr tickFence))) = .ok (.jstr []) ∧
    JsonVal.jstr ([] : Chars) ≠ .jstr tickFence := by
  constructor
  · rfl
  · intro h
    have h2 : ([] : Chars) = tickFence := by injection h
    rw [tickFence_chars] at h2
    exact absurd h2 (by decide)

/-! Claims about the request handler. -/

/-- C3: for every request that passes validation and whose extraction
succeeds with text t, the prompt handed to the model embeds exactly
`t.slice(0, MAX_CHARS)`, and that embedded resume text has at most
MAX_CHARS = 12000 characters; characters beyond the cap are dropped with
no error (the handler proceeds normally). -/
theorem claim_C3 (env : Env) (req : CheckResumeRequest) (f : UploadedFile) (t : Chars)
    (hjt : jsTruthy req.jobTitle = true) (hfile : req.file = some f)
    (hext : (extractText env f.path f.mimetype).2 = .ok t) :
    (checkResume env req).promptSent
        = some (analyzePrompt (t.take MAX_CHARS) (jobTitleStr req.jobTitle)) ∧
    (t.take MAX_CHARS).length ≤ MAX_CHARS := by
  constructor
  · unfold checkResume analyzeResume
    rw [hjt, hfile]
    simp only [Bool.not_true, Bool.false_eq_true, if_false]
    rw [hext]
    cases hg : env.generateContent (analyzePrompt (t.take MAX_CHARS) (jobTitleStr req.jobTitle))
      with
    | error e => simp [mkRes, hg]
    | ok raw =>
      cases hp : safeParseJSON (cleanModelOutput raw) with
      | error e => simp [mkRes, hg, hp]
      | ok parsed => simp [mkRes, hg, hp]
  · rw [List.length_take]
    exact min_le_left _ _

/-- C3, witness: a concrete request with a short resume text. -/
theorem claim_C3_witness :
    jsTruthy reqFull.jobTitle = true ∧ reqFull.file = some fileA ∧
    (extractText envOk fileA.path fileA.mimetype).2 = .ok "resume text".data ∧
    ((checkResume envOk reqFull).promptSent
        = some (analyzePrompt ("resume text".data.take MAX_CHARS) (jobTitleStr reqFull.jobTitle)) ∧
      ("resume text".data.take MAX_CHARS).length ≤ MAX_CHARS) :=
  ⟨rfl, rfl, rfl, claim_C3 envOk reqFull fileA "resume text".data rfl rfl rfl⟩

/-- C4: whenever extraction, the model call, or response parsing fails on
a validated request, the response is status 500 with body exactly
`{"error": "Resume analysis failed"}` — a constant, so no internal
detail of the failure can appear in the body. -/
theorem claim_C4 (env : Env) (req : CheckResumeRequest) (f : UploadedFile)
    (hjt : jsTruthy req.jobTitle = true) (hfile : req.file = some f)
    (hfail :
      (∃ e, (extractText env f.path f.mimetype).2 = .error e) ∨
      (∃ t e, (extractText env f.path f.mimetype).2 = .ok t ∧
        env.generateContent (analyzePrompt (t.take MAX_CHARS) (jobTitleStr req.jobTitle))
          = .error e) ∨
      (∃ t raw e, (extractText env f.path f.mimetype).2 = .ok t ∧
        env.generateContent (analyzePrompt (t.take MAX_CHARS) (jobTitleStr req.jobTitle))
          = .ok raw ∧
        safeParseJSON (cleanModelOutput raw) = .error e)) :
    (checkResume env req).status = 500 ∧
    (checkResume env req).body = errBody analysisFailedMsg := by
  unfold checkResume analyzeResume
  rw [hjt, hfile]
  simp only [Bool.not_true, Bool.false_eq_true, if_false]
  rcases hfail with ⟨e, hext⟩ | ⟨t, e, hext, hgen⟩ | ⟨t, raw, e, hext, hgen, hparse⟩
  · rw [hext]
    simp [mkRes]
  · rw [hext]
    simp only []
    rw [hgen]
    simp [mkRes]
  · rw [hext]
    simp only []
    rw [hgen]
    simp only []
    rw [hparse]
    simp [mkRes]

/-- C4, witness: a concrete request whose extraction fails because the
temporary file is missing from the file system. -/
theorem claim_C4_witness :
    jsTruthy reqFull.jobTitle = true ∧ reqFull.file = some fileA ∧
    (extractText envFail fileA.path fileA.mimetype).2
      = .error ⟨"ENOENT: no such file or directory, open ".data ++ fileA.path⟩ ∧
    ((checkResume envFail reqFull).status = 500 ∧
      (checkResume envFail reqFull).body = errBody analysisFailedMsg) :=
  ⟨rfl, rfl, rfl,
    claim_C4 envFail reqFull fileA rfl rfl
      (Or.inl ⟨⟨"ENOENT: no such file or directory, open ".data ++ fileA.path⟩, rfl⟩)⟩

/-- C5: a request with a (truthy) job title but no uploaded file gets a
400 response with the file-required body, and neither extraction nor the
model is invoked. -/
theorem claim_C5 (env : Env) (req : CheckResumeRequest)
    (hjt : jsTruthy req.jobTitle = true) (hfile : req.file = none) :
    (checkResume env req).status = 400 ∧
    (checkResume env req).body = errBody fileRequiredMsg ∧
    (checkResume env req).extractCalled = false ∧
    (checkResume env req).promptSent = none := by
  unfold checkResume
  rw [hjt, hfile]
  simp [mkRes]

/-- C5, witness: a concrete request with a job title and no file. -/
theorem claim_C5_witness :
    jsTruthy reqNoFile.jobTitle = true ∧ reqNoFile.file = none ∧
    ((checkResume envOk reqNoFile).status = 400 ∧
      (checkResume envOk reqNoFile).body = errBody fileRequiredMsg ∧
      (checkResume envOk reqNoFile).extractCalled = false ∧
      (checkResume envOk reqNoFile).promptSent = none) :=
  ⟨rfl, rfl, claim_C5 envOk reqNoFile rfl rfl⟩

/-- C9: whenever the cleaned model output parses as JSON, the parsed
value — whatever its structure — is returned unchanged as the 200
response body; no schema validation happens beyond JSON parsing. -/
theorem claim_C9 (env : Env) (req : CheckResumeRequest) (f : UploadedFile) (t raw : Chars)
    (v : JsonVal)
    (hjt : jsTruthy req.jobTitle = true) (hfile : req.file = some f)
    (hext : (extractText env f.path f.mimetype).2 = .ok t)
    (hgen : env.generateContent (analyzePrompt (t.take MAX_CHARS) (jobTitleStr req.jobTitle))
      = .ok raw)
    (hparse : safeParseJSON (cleanModelOutput raw) = .ok v) :
    (checkResume env req).status = 200 ∧ (checkResume env req).body = v := by
  unfold checkResume analyzeResume
  rw [hjt, hfile]
  simp only [Bool.not_true, Bool.false_eq_true, if_false]
  rw [hext]
  simp only []
  rw [hgen]
  simp only []
  rw [hparse]
  simp [mkRes]

/-- C9, witness: the model answers `{"foo":1}`, which does not match the
documented EvaluationResponse schema, and the handler returns it
unchanged with status 200. -/
theorem claim_C9_witness :
    jsTruthy reqFull.jobTitle = true ∧ reqFull.file = some fileA ∧
    (extractText envOk fileA.path fileA.mimetype).2 = .ok "resume text".data ∧
    envOk.generateContent
        (analyzePrompt ("resume text".data.take MAX_CHARS) (jobTitleStr reqFull.jobTitle))
      = .ok rawFoo ∧
    safeParseJSON (cleanModelOutput rawFoo)
      = .ok (.jobj (.cons "foo".data (.jint 1) .nil)) ∧
    ((checkResume envOk reqFull).status = 200 ∧
      (checkResume envOk reqFull).body = .jobj (.cons "foo".data (.jint 1) .nil)) :=
  ⟨rfl, rfl, rfl, rfl, rfl,
    claim_C9 envOk reqFull fileA "resume text".data rawFoo
      (.jobj (.cons "foo".data (.jint 1) .nil)) rfl rfl rfl rfl rfl⟩

/-- C10: when both the jobTitle field and the file are missing, the
job-title check fires first: the response is 400 with the job-title
error body, not the file-required body. -/
theorem claim_C10 (env : Env) (req : CheckResumeRequest)
    (hjt : jsTruthy req.jobTitle = false) (hfile : req.file = none) :
    (checkResume env req).status = 400 ∧
    (checkResume env req).body = errBody jobTitleRequiredMsg ∧
    errBody jobTitleRequiredMsg ≠ errBody fileRequiredMsg := by
  refine ⟨?_, ?_, ?_⟩
  · unfold checkResume
    rw [hjt]
    simp [mkRes]
  · unfold checkResume
    rw [hjt]
    simp [mkRes]
  · intro h
    unfold errBody at h
    simp [jobTitleRequiredMsg, fileRequiredMsg] at h

/-- C10, witness: the concrete request with neither field. -/
theorem claim_C10_witness :
    jsTruthy reqNothing.jobTitle = false ∧ reqNothing.file = none ∧
    ((checkResume envOk reqNothing).status = 400 ∧
      (checkResume envOk reqNothing).body = errBody jobTitleRequiredMsg ∧
      errBody jobTitleRequiredMsg ≠ errBody fileRequiredMsg) :=
  ⟨rfl, rfl, claim_C10 envOk reqNothing rfl rfl⟩

/-- C1: evaluation at the failing input.  A request that uploads a file
(which multer stores on disk) but carries no jobTitle field is answered
with 400, yet the `finally` block performs no unlink — the `filePath`
variable is assigned only after validation — so the temporary file
survives the request, contradicting the removed-on-every-exit-path
claim. -/
theorem claim_C1_bug_eval :
    (checkResume envOk reqNoTitle).status = 400 ∧
    (checkResume envOk reqNoTitle).unlinkCalls = [] ∧
    (checkResume envOk reqNoTitle).fileRetained = true :=
  ⟨rfl, rfl, rfl⟩

/-- C6: evaluation at the failing input.  A request with an empty
jobTitle and an uploaded file gets the 400 job-title body with no
extraction and no model call — those conjuncts of the claim hold — but
the uploaded temporary file is retained, contradicting the claim's
no-file-retained conjunct. -/
theorem claim_C6_bug_eval :
    (checkResume envOk reqEmptyTitle).status = 400 ∧
    (checkResume envOk reqEmptyTitle).body = errBody jobTitleRequiredMsg ∧
    (checkResume envOk reqEmptyTitle).extractCalled = false ∧
    (checkResume envOk reqEmptyTitle).promptSent = none ∧
    (checkResume envOk reqEmptyTitle).fileRetained = true :=
  ⟨rfl, rfl, rfl, rfl, rfl⟩

/-- C7 (as amended): for every media type other than PDF and DOCX,
`extractText` fails with an unsupported-type error whose message is the
fixed string "Unsupported file type. Upload PDF or DOCX." — the error
does not carry the media type; the offending media type is recorded only
in the entry log line — and no text is returned. -/
theorem claim_C7 (env : Env) (fp mt : Chars) (h1 : mt ≠ appPdf) (h2 : mt ≠ appDocx) :
    (extractText env fp mt).2 = .error ⟨unsupportedMsg⟩ ∧
    (extractText env fp mt).1
      = "📄 Extracting text from: ".data ++ fp ++ " (".data ++ mt ++ ")".data := by
  unfold extractText extractLog
  rw [if_neg h1, if_neg h2]
  exact ⟨rfl, rfl⟩

/-- C7, witness: the media type "text/plain". -/
theorem claim_C7_witness :
    mtTextPlain ≠ appPdf ∧ mtTextPlain ≠ appDocx ∧
    ((extractText envFail pathA mtTextPlain).2 = .error ⟨unsupportedMsg⟩ ∧
      (extractText envFail pathA mtTextPlain).1
        = "📄 Extracting text from: ".data ++ pathA ++ " (".data ++ mtTextPlain ++ ")".data) :=
  ⟨by decide, by decide, claim_C7 envFail pathA mtTextPlain (by decide) (by decide)⟩

/-- C7, counterexample to the claim as stated: at media type
"text/plain" the extractor's error message is the fixed unsupported-type
string, which does not contain the offending media type. -/
theorem claim_C7_counterexample :
    (extractText envFail pathA mtTextPlain).2 = .error ⟨unsupportedMsg⟩ ∧
    containsSub mtTextPlain unsupportedMsg = false :=
  ⟨rfl, by decide⟩

/-- C8 (as amended): the multer configuration sets no file-size limit
(the source passes only a destination directory), so intake accepts an
upload of any size; nothing is rejected at 5 MB. -/
theorem claim_C8_amended : ∀ f : UploadedFile, intakeAccepts upload f = true :=
  fun _ => rfl

/-- C8, counterexample to the claim as stated: a file one byte above
5 MB is accepted at intake and proceeds to extraction rather than being
rejected. -/
theorem claim_C8_counterexample :
    fileBig.size = 5 * 1024 * 1024 + 1 ∧
    intakeAccepts upload fileBig = true ∧
    (checkResume envOk reqBig).extractCalled = true :=
  ⟨rfl, rfl, rfl⟩
